import Mathlib

/-!
A verification development for the fixture-aggregation pipeline
(`src/lib/data-sources.ts`, `src/lib/events-service.ts`, the calendar API
route, and `src/types/events.ts`).

Shallow-embedding conventions, used consistently below:

* Timestamps.  The source stores ISO-8601 UTC strings produced by
  `Date.prototype.toISOString` and compares them after re-parsing with
  `new Date(s).getTime()`.  Parsing an ISO string produced by
  `toISOString` round-trips to the same epoch-millisecond value, so the
  embedding represents an instant directly by its epoch milliseconds
  (`Int`).  A raw provider date *string* is represented by its parse
  result: `Option Int` (`none` = the string does not parse, i.e. JS
  `new Date(s)` is invalid); a raw date *field* that may be absent is
  `Option (Option Int)` (outer `none` = field missing).
* Calendar arithmetic (`date-fns` `subMonths`/`addMonths`), `yyyyMMdd`
  formatting, and WHATWG URL resolution are external libraries/builtins;
  they enter the embedding as fields of `TimeEnv` together with the
  current clock value `now` (the source calls `new Date()`).
* JS objects with optional properties become structures with `Option`
  fields.  `a ?? b` is `Option.or`; JS truthiness of a string-valued
  expression (`if (s)`, `s ? x : y`) is captured by `truthy`, which maps
  the empty string to `none`.
* Fallible async code (`fetch`/`await`, thrown errors) is embedded by
  passing the settled outcome of each network request as an explicit
  input: a `net : String → Except FetchError _` oracle keyed by the
  requested URL, with `Except.error` for a rejected promise.
-/

namespace Schedule

/-- Model of `CalendarSource` from `src/types/events.ts`. -/
inductive CalendarSource where
  | MANCHESTER_UNITED
  | LEEDS_UNITED
  | LEGACY_CS2
  | UFC
deriving DecidableEq, Repr

/-- Model of `CalendarOutcome` from `src/types/events.ts`. -/
inductive CalendarOutcome where
  | WIN
  | LOSS
  | DRAW
deriving DecidableEq, Repr

/-- Model of `CalendarEventWithMeta` from `src/types/events.ts`: the public
`CalendarEvent` fields plus the extended-only fields `venue`, `location`,
`status`, `url`, `subtitle`.  The runtime object produced by the route
handler's rest-destructuring simply lacks the removed properties; since
every removed property is optional, "absent" is rendered as `none`. -/
structure CalendarEventWithMeta where
  id : String
  source : CalendarSource
  title : String
  competition : Option String := none
  fighters : Option String := none
  startTimeUTC : Int
  result : Option String := none
  outcome : Option CalendarOutcome := none
  venue : Option String := none
  location : Option String := none
  status : Option String := none
  url : Option String := none
  subtitle : Option String := none
deriving DecidableEq, Repr

/-- Error value carried by a rejected fetch (`Error` object in JS);
only its identity matters to the control flow. -/
abbrev FetchError := String

/-- External time/formatting/URL facilities used by the source:
`now` is the value of `new Date()` during the aggregation cycle (as an
epoch-millisecond instant), `subMonths`/`addMonths` are the `date-fns`
calendar operations, `fmtYMD` is `format(_, "yyyyMMdd")`, and
`resolveUrl` is `new URL(href, "https://liquipedia.net").toString()`. -/
structure TimeEnv where
  now : Int
  subMonths : Int → Nat → Int
  addMonths : Int → Nat → Int
  fmtYMD : Int → String
  resolveUrl : String → String

/-- Constant `DEFAULT_RANGE_MONTHS_AHEAD`. -/
def DEFAULT_RANGE_MONTHS_AHEAD : Nat := 6

/-- Constant `DEFAULT_RANGE_MONTHS_BEHIND`. -/
def DEFAULT_RANGE_MONTHS_BEHIND : Nat := 1

/-- Constant `LEGACY_RANGE_MONTHS_AHEAD`. -/
def LEGACY_RANGE_MONTHS_AHEAD : Nat := 18

/-- Constant `LEGACY_RANGE_MONTHS_BEHIND`. -/
def LEGACY_RANGE_MONTHS_BEHIND : Nat := 3

/-- Model of `isWithinWindow(dateISO, monthsAhead, monthsBehind)`.  The source
takes the ISO string, re-parses it (`new Date(dateISO)`), and returns
`false` on `NaN`; every call site passes a string produced by `toISO` /
`toISOString`, which always re-parses to the instant it came from, so the
embedding receives the instant directly.  The two comparisons
`date >= earliest && date <= latest` make both boundaries inclusive. -/
def isWithinWindow (env : TimeEnv) (dateISO : Int) (monthsAhead : Nat)
    (monthsBehind : Nat) : Bool :=
  let earliest := env.subMonths env.now monthsBehind
  let latest := env.addMonths env.now monthsAhead
  decide (earliest ≤ dateISO) && decide (dateISO ≤ latest)

/-- Model of `isWithinDefaultWindow(dateISO)`. -/
def isWithinDefaultWindow (env : TimeEnv) (dateISO : Int) : Bool :=
  isWithinWindow env dateISO DEFAULT_RANGE_MONTHS_AHEAD DEFAULT_RANGE_MONTHS_BEHIND

/-- Model of `toISO(dateString)`: `null` for a missing string, `null` for an
unparseable string (this includes the falsy empty string, which also
fails to parse), otherwise the canonical ISO rendering of the parsed
instant — represented here by the instant itself. -/
def toISO (dateString : Option (Option Int)) : Option Int :=
  match dateString with
  | none => none
  | some parsed => parsed

/-- JS string truthiness: `undefined`/`null` and `""` are falsy.
`truthy s = some v` exactly when the value is a present, non-empty
string `v` (unchanged). -/
def truthy (s : Option String) : Option String :=
  match s with
  | none => none
  | some v => if v = "" then none else some v

/-- Model of `String.prototype.trim` (drop leading and trailing whitespace). -/
def jsTrim (s : String) : String :=
  ⟨((s.data.dropWhile Char.isWhitespace).reverse.dropWhile Char.isWhitespace).reverse⟩

/-- Splitting at every whitespace character, as a structural list
operation (`List.splitOnP`); used to model both `split(/\s+/)` and the
whitespace-run collapsing of `cleanText`.  The difference from the JS
regex split — empty fragments around separator runs — is irrelevant at
every use site, which all ignore empty fragments. -/
def splitWs (s : String) : List String :=
  (s.data.splitOnP Char.isWhitespace).map (fun cs => (⟨cs⟩ : String))

/-- Model of `value.replace(/\s+/g, " ").trim()` (`cleanText`): collapse each
whitespace run to one space and trim; `undefined` when the input is
missing, falsy (empty), or trims to nothing.  Collapsing-then-trimming
equals joining the maximal non-whitespace runs with single spaces. -/
def cleanText (value : Option String) : Option String :=
  match value with
  | none => none
  | some v =>
    if v = "" then none
    else
      let trimmed := " ".intercalate ((splitWs v).filter (· ≠ ""))
      if trimmed = "" then none else some trimmed

/-- Value of a digit run (used by the integer parsers below). -/
def digitsToNat (ds : List Char) : Nat :=
  ds.foldl (fun acc c => 10 * acc + (c.toNat - 48)) 0

/-- First match of the regex `-?\d+` in a character sequence, scanning
left to right: at each position a digit opens a match of the maximal
digit run; a `-` immediately followed by a digit opens a signed match. -/
def findIntMatch : List Char → Option (List Char)
  | [] => none
  | c :: rest =>
    if c.isDigit then some (c :: rest.takeWhile Char.isDigit)
    else if c = '-' then
      match rest with
      | d :: _ =>
        if d.isDigit then some (c :: rest.takeWhile Char.isDigit)
        else findIntMatch rest
      | [] => none
    else findIntMatch rest

/-- Model of `Number.parseInt` applied to a `-?\d+` match (always succeeds). -/
def parseIntMatched (cs : List Char) : Int :=
  match cs with
  | '-' :: ds => -(digitsToNat ds : Int)
  | ds => (digitsToNat ds : Int)

/-- Model of `extractNumericScore(value)`: `null` for a missing or falsy (empty)
string, otherwise `parseInt` of the first `-?\d+` match, `null` when the
regex does not match.  (The source's final `Number.isNaN` guard cannot
fire on a successful `-?\d+` match.) -/
def extractNumericScore (value : Option String) : Option Int :=
  match value with
  | none => none
  | some s =>
    if s = "" then none
    else (findIntMatch s.data).map parseIntMatched

/-- Model of `Number.parseInt(s, 10)`: skip leading whitespace, accept an
optional sign, then require at least one leading digit; `NaN` (here
`none`) otherwise. -/
def parseIntJS (s : String) : Option Int :=
  let cs := s.data.dropWhile Char.isWhitespace
  match cs with
  | '-' :: rest =>
    let ds := rest.takeWhile Char.isDigit
    if ds = [] then none else some (-(digitsToNat ds : Int))
  | '+' :: rest =>
    let ds := rest.takeWhile Char.isDigit
    if ds = [] then none else some ((digitsToNat ds : Int))
  | rest =>
    let ds := rest.takeWhile Char.isDigit
    if ds = [] then none else some ((digitsToNat ds : Int))

/-- Model of `s.startsWith(pre)` as a structural prefix test on the
character lists. -/
def jsStartsWith (s pre : String) : Bool :=
  pre.data.isPrefixOf s.data

/-- Model of `haystack.includes(needle)` (substring containment). -/
def strContains (haystack needle : String) : Bool :=
  haystack.data.tails.any (fun t => needle.data.isPrefixOf t)

/-- Per-club configuration entry of the `TEAM_SOURCES` table. -/
structure TeamSourceConfig where
  teamId : String
  displayName : String
  endpoints : List String
  scoreboardEndpoints : List String
deriving DecidableEq, Repr

/-- Keys of the `TEAM_SOURCES` table (`TeamSourceKey`). -/
inductive TeamSourceKey where
  | MANCHESTER_UNITED
  | LEEDS_UNITED
deriving DecidableEq, Repr

/-- The `TEAM_SOURCES` configuration table. -/
def TEAM_SOURCES : TeamSourceKey → TeamSourceConfig
  | .MANCHESTER_UNITED =>
    { teamId := "360"
      displayName := "Manchester United"
      endpoints :=
        ["https://site.api.espn.com/apis/site/v2/sports/soccer/eng.1/teams/360/schedule"]
      scoreboardEndpoints :=
        ["https://site.api.espn.com/apis/site/v2/sports/soccer/eng.1/scoreboard"] }
  | .LEEDS_UNITED =>
    { teamId := "357"
      displayName := "Leeds United"
      endpoints :=
        ["https://site.api.espn.com/apis/site/v2/sports/soccer/eng.1/teams/357/schedule",
         "https://site.api.espn.com/apis/site/v2/sports/soccer/eng.2/teams/357/schedule"]
      scoreboardEndpoints :=
        ["https://site.api.espn.com/apis/site/v2/sports/soccer/eng.1/scoreboard",
         "https://site.api.espn.com/apis/site/v2/sports/soccer/eng.2/scoreboard"] }

/-- Rendering of a `TeamSourceKey` inside a template literal. -/
def TeamSourceKey.str : TeamSourceKey → String
  | .MANCHESTER_UNITED => "MANCHESTER_UNITED"
  | .LEEDS_UNITED => "LEEDS_UNITED"

/-- The `CalendarSource` value denoted by a `TeamSourceKey` (in the
source both are the same string literal). -/
def TeamSourceKey.toCalendarSource : TeamSourceKey → CalendarSource
  | .MANCHESTER_UNITED => .MANCHESTER_UNITED
  | .LEEDS_UNITED => .LEEDS_UNITED

/-- Raw `team` object inside a competitor (`RawTeamSchedule`); only the
`id` and `displayName` properties are ever read. -/
structure RawTeam where
  id : Option String := none
  displayName : Option String := none
deriving DecidableEq, Repr

/-- Raw competitor entry of a competition.  `homeAway` is typed
`"home" | "away"` upstream but is only ever compared against those
string literals, so it is kept as an optional string. -/
structure RawCompetitor where
  homeAway : Option String := none
  team : Option RawTeam := none
  score : Option String := none
deriving DecidableEq, Repr

/-- Raw `status.type` object. -/
structure RawStatusType where
  state : Option String := none
  detail : Option String := none
  description : Option String := none
deriving DecidableEq, Repr

/-- Raw `status` object. -/
structure RawStatus where
  type : Option RawStatusType := none
deriving DecidableEq, Repr

/-- Raw `venue.address` object. -/
structure RawAddress where
  city : Option String := none
  country : Option String := none
deriving DecidableEq, Repr

/-- Raw `venue` object. -/
structure RawVenue where
  fullName : Option String := none
  address : Option RawAddress := none
deriving DecidableEq, Repr

/-- Raw competition entry of a team-schedule event. -/
structure RawCompetition where
  date : Option (Option Int) := none
  venue : Option RawVenue := none
  competitors : Option (List RawCompetitor) := none
  status : Option RawStatus := none
deriving DecidableEq, Repr

/-- Raw `league` object. -/
structure RawLeague where
  name : Option String := none
  shortName : Option String := none
deriving DecidableEq, Repr

/-- Raw `seasonType` object. -/
structure RawSeasonType where
  name : Option String := none
deriving DecidableEq, Repr

/-- Raw `season` object. -/
structure RawSeason where
  displayName : Option String := none
deriving DecidableEq, Repr

/-- Raw event entry of `RawTeamSchedule.events`. -/
structure RawTeamEvent where
  id : Option String := none
  date : Option (Option Int) := none
  name : Option String := none
  shortName : Option String := none
  seasonType : Option RawSeasonType := none
  season : Option RawSeason := none
  competitions : Option (List RawCompetition) := none
  league : Option RawLeague := none
deriving DecidableEq, Repr

/-- Model of `RawTeamSchedule`. -/
structure RawTeamSchedule where
  events : Option (List RawTeamEvent) := none
deriving DecidableEq, Repr

/-- Model of `RawSoccerScoreboard` (structurally the same `events` shape). -/
abbrev RawSoccerScoreboard := RawTeamSchedule

/-- Model of `buildLocation(venue)`: join the truthy pieces among
`fullName`, `address.city`, `address.country` with `", "`
(`filter(Boolean)` drops both missing and empty strings). -/
def buildLocation (venue : Option RawVenue) : Option String :=
  match venue with
  | none => none
  | some v =>
    let pieces :=
      [v.fullName, v.address.bind (·.city), v.address.bind (·.country)].filterMap truthy
    if pieces = [] then none else some (", ".intercalate pieces)

/-- Result shape of `formatMatchup`. -/
structure Matchup where
  title : String
  subtitle : Option String
deriving DecidableEq, Repr

/-- Model of `formatMatchup(ourTeam, competitors)` (the `ourTeam` object is
passed as its two string fields).  `focus` is the first competitor whose
team id equals ours; `opponent` is the first whose team id is truthy and
different; missing opponent display name falls back to `"TBD"` (nullish,
so a present empty string survives); the qualifier is `"vs"` for home or
unknown side, `"@"` for away; the interpolated title is trimmed. -/
def formatMatchup (ourTeamId ourTeamName : String)
    (competitors : List RawCompetitor) : Matchup :=
  let focus := competitors.find? (fun c => c.team.bind (·.id) == some ourTeamId)
  let opponent := competitors.find? (fun c =>
    match c.team.bind (·.id) with
    | some i => i != "" && i != ourTeamId
    | none => false)
  let opponentName := ((opponent.bind (·.team)).bind (·.displayName)).getD "TBD"
  let qualifier :=
    if (focus.bind (·.homeAway)) == some "home" then "vs"
    else if (focus.bind (·.homeAway)) == some "away" then "@"
    else "vs"
  { title := jsTrim (ourTeamName ++ " " ++ qualifier ++ " " ++ opponentName)
    subtitle := some opponentName }

/-- First competition of a raw team event (`event.competitions?.[0]`). -/
def eventCompetition (event : RawTeamEvent) : Option RawCompetition :=
  event.competitions.bind List.head?

/-- Competitor list of the first competition (`competition?.competitors ?? []`). -/
def eventCompetitors (event : RawTeamEvent) : List RawCompetitor :=
  ((eventCompetition event).bind (·.competitors)).getD []

/-- The `status.type` object of the first competition. -/
def eventStatusType (event : RawTeamEvent) : Option RawStatusType :=
  ((eventCompetition event).bind (·.status)).bind (·.type)

/-- The `focusCompetitor` binding of the normalizer loop body. -/
def focusCompetitorOf (config : TeamSourceConfig) (event : RawTeamEvent) :
    Option RawCompetitor :=
  (eventCompetitors event).find? (fun c => c.team.bind (·.id) == some config.teamId)

/-- The `opponentCompetitor` binding of the normalizer loop body
(team id present, truthy, and different from ours). -/
def opponentCompetitorOf (config : TeamSourceConfig) (event : RawTeamEvent) :
    Option RawCompetitor :=
  (eventCompetitors event).find? (fun c =>
    match c.team.bind (·.id) with
    | some i => i != "" && i != config.teamId
    | none => false)

/-- One iteration of the `normalizeTeamEvents` loop: `none` when the
iteration hits `continue` (missing/unparseable or out-of-window start
time), otherwise the pushed canonical event. -/
def normalizeTeamEvent (env : TimeEnv) (source : TeamSourceKey)
    (event : RawTeamEvent) : Option CalendarEventWithMeta :=
  let config := TEAM_SOURCES source
  let startTime := toISO (((eventCompetition event).bind (·.date)).or event.date)
  match startTime with
  | none => none
  | some t =>
    if isWithinDefaultWindow env t = false then none
    else
      let matchup := formatMatchup config.teamId config.displayName (eventCompetitors event)
      let state := (eventStatusType event).bind (·.state)
      let statusDetail := (eventStatusType event).bind (·.detail)
      let statusDescription := (eventStatusType event).bind (·.description)
      let resultOutcome : Option String × Option CalendarOutcome :=
        if state == some "post" then
          match truthy ((focusCompetitorOf config event).bind (·.score)),
                truthy ((opponentCompetitorOf config event).bind (·.score)) with
          | some focusScore, some opponentScore =>
            let res := some (focusScore ++ " - " ++ opponentScore)
            match extractNumericScore (some focusScore),
                  extractNumericScore (some opponentScore) with
            | some focusNumeric, some opponentNumeric =>
              (res,
               some (if focusNumeric > opponentNumeric then .WIN
                     else if focusNumeric < opponentNumeric then .LOSS
                     else .DRAW))
            | _, _ => (res, none)
          | _, _ => ((truthy statusDetail).or (truthy statusDescription), none)
        else (none, none)
      some
        { id := source.str ++ "-" ++ (event.id.getD (toString t))
          source := source.toCalendarSource
          title := matchup.title
          competition :=
            (event.league.bind (·.shortName)).or
              ((event.seasonType.bind (·.name)).or (event.season.bind (·.displayName)))
          fighters := none
          startTimeUTC := t
          venue := ((eventCompetition event).bind (·.venue)).bind (·.fullName)
          location := buildLocation ((eventCompetition event).bind (·.venue))
          status := statusDetail.or statusDescription
          url := none
          subtitle := matchup.subtitle
          result := resultOutcome.1
          outcome := resultOutcome.2 }

/-- Model of `normalizeTeamEvents(events, source)`: `events ?? []`, then the
per-event loop, which pushes at most one canonical event per raw event. -/
def normalizeTeamEvents (env : TimeEnv) (events : Option (List RawTeamEvent))
    (source : TeamSourceKey) : List CalendarEventWithMeta :=
  (events.getD []).filterMap (normalizeTeamEvent env source)

/-- Raw `athlete` object of a UFC competitor. -/
structure RawAthlete where
  displayName : Option String := none
deriving DecidableEq, Repr

/-- Raw UFC competitor. -/
structure RawUfcCompetitor where
  athlete : Option RawAthlete := none
deriving DecidableEq, Repr

/-- Raw `cardSegment` object. -/
structure RawCardSegment where
  name : Option String := none
deriving DecidableEq, Repr

/-- Raw `type` object of a UFC competition. -/
structure RawUfcCompetitionType where
  text : Option String := none
  abbreviation : Option String := none
deriving DecidableEq, Repr

/-- Raw UFC competition entry. -/
structure RawUfcCompetition where
  id : Option String := none
  date : Option (Option Int) := none
  matchNumber : Option Int := none
  cardSegment : Option RawCardSegment := none
  type : Option RawUfcCompetitionType := none
  competitors : Option (List RawUfcCompetitor) := none
deriving DecidableEq, Repr

/-- Raw UFC scoreboard event entry. -/
structure RawUfcEvent where
  id : Option String := none
  date : Option (Option Int) := none
  name : Option String := none
  shortName : Option String := none
  competitions : Option (List RawUfcCompetition) := none
deriving DecidableEq, Repr

/-- Model of `RawUfcScoreboard`. -/
structure RawUfcScoreboard where
  events : Option (List RawUfcEvent) := none
deriving DecidableEq, Repr

/-- Model of `pickMainUfcCompetition(competitions)`: prefer competitions whose
card segment is `"main"`; among the pool, `reduce` keeps the entry with
the strictly smallest `matchNumber ?? 100` (the earlier entry wins ties). -/
def pickMainUfcCompetition (competitions : Option (List RawUfcCompetition)) :
    Option RawUfcCompetition :=
  match competitions with
  | none => none
  | some [] => none
  | some (c0 :: cs) =>
    let comps := c0 :: cs
    let mainCandidates := comps.filter (fun c => c.cardSegment.bind (·.name) == some "main")
    let pool := if mainCandidates.isEmpty then comps else mainCandidates
    match pool with
    | [] => none
    | p0 :: ps =>
      some (ps.foldl (fun best current =>
        if current.matchNumber.getD 100 < best.matchNumber.getD 100 then current
        else best) p0)

/-- Loop of `normalizeUfcEvents`, carrying the `seen` id set: skip events
with a missing or already-seen id, mark the id seen, resolve the main
competition and the start time (`event.date ?? competition?.date`), drop
missing/unparseable or out-of-window times, and otherwise push the
canonical event.  `fighters` joins the truthy athlete display names with
`" vs "` and is omitted when the join is empty (`|| undefined`). -/
def normalizeUfcLoop (env : TimeEnv) :
    List RawUfcEvent → List String → List CalendarEventWithMeta
  | [], _ => []
  | event :: rest, seen =>
    match event.id with
    | none => normalizeUfcLoop env rest seen
    | some eid =>
      if seen.contains eid then normalizeUfcLoop env rest seen
      else
        let seen2 := eid :: seen
        let competition := pickMainUfcCompetition event.competitions
        let startTime := toISO (event.date.or (competition.bind (·.date)))
        match startTime with
        | none => normalizeUfcLoop env rest seen2
        | some t =>
          if isWithinDefaultWindow env t = false then normalizeUfcLoop env rest seen2
          else
            let fighterNames :=
              " vs ".intercalate
                (((competition.bind (·.competitors)).getD []).filterMap
                  (fun c => truthy ((c.athlete.bind (·.displayName)))))
            { id := "UFC-" ++ eid
              source := .UFC
              title :=
                (event.name.or ((competition.bind (·.type)).bind (·.text))).getD "UFC Event"
              competition :=
                ((competition.bind (·.type)).bind (·.text)).or
                  ((competition.bind (·.type)).bind (·.abbreviation))
              fighters := if fighterNames = "" then none else some fighterNames
              startTimeUTC := t } :: normalizeUfcLoop env rest seen2

/-- Model of `normalizeUfcEvents(data)`. -/
def normalizeUfcEvents (env : TimeEnv) (data : RawUfcScoreboard) :
    List CalendarEventWithMeta :=
  normalizeUfcLoop env (data.events.getD []) []

/-- An `<a>` element inside the tournament cell: its rendered text and
`href` attribute. -/
structure LegacyLink where
  textContent : Option String := none
  href : Option String := none
deriving DecidableEq, Repr

/-- A `<td>` cell of a roster-page row: its rendered text and its first
`<a>` descendant, when any. -/
structure LegacyCell where
  textContent : Option String := none
  link : Option LegacyLink := none
deriving DecidableEq, Repr

/-- A `<tr>` element of the parsed wiki markup, as the normalizer reads
it: the `class` attribute, the `data-timestamp` attribute of the first
`[data-timestamp]` descendant, and the `<td>` cells in order.  The
`node-html-parser` layer that produces this view from the markup text is
an external library and is embedded as this already-parsed shape. -/
structure LegacyRow where
  classAttr : Option String := none
  dataTimestamp : Option String := none
  cells : List LegacyCell := []
deriving DecidableEq, Repr

/-- The row filter of `normalizeLegacyCs2Matches`: keep rows whose class
list contains a class starting with `recent-matches`, `upcoming-matches`
or `upcoming-match`, or equal to `match-row`. -/
def legacyRowClassOk (row : LegacyRow) : Bool :=
  match row.classAttr with
  | none => false
  | some classAttr =>
    (splitWs classAttr).any (fun className =>
      jsStartsWith className "recent-matches" ||
      jsStartsWith className "upcoming-matches" ||
      jsStartsWith className "upcoming-match" ||
      className == "match-row")

/-- One iteration of the row loop of `normalizeLegacyCs2Matches`, without
the `seen` dedup check (which lives in `normalizeLegacyLoop`): `none`
when the row is discarded for a missing/unparseable timestamp, an
out-of-window start time, or fewer than 7 cells. -/
def legacyRowEvent (env : TimeEnv) (row : LegacyRow) : Option CalendarEventWithMeta :=
  let rowClasses := (splitWs (row.classAttr.getD "")).filter (· ≠ "")
  let timestamp :=
    match row.dataTimestamp with
    | some attr => parseIntJS attr
    | none => none
  match timestamp.map (· * 1000) with
  | none => none
  | some startTimeUTC =>
    if isWithinWindow env startTimeUTC LEGACY_RANGE_MONTHS_AHEAD
        LEGACY_RANGE_MONTHS_BEHIND = false then none
    else if row.cells.length < 7 then none
    else
      let cells := row.cells
      let tierText := cleanText ((cells.get? 1).bind (·.textContent))
      let typeText := cleanText ((cells.get? 2).bind (·.textContent))
      let tournamentCell := cells.get? 5
      let tournamentLink := tournamentCell.bind (·.link)
      let competition :=
        cleanText ((tournamentLink.bind (·.textContent)).or
          (tournamentCell.bind (·.textContent)))
      let tournamentHref := tournamentLink.bind (·.href)
      let url :=
        match truthy tournamentHref with
        | some href => some (env.resolveUrl href)
        | none => none
      let scoreText := cleanText ((cells.get? 6).bind (·.textContent))
      let opponentText := cleanText ((cells.get? 7).bind (·.textContent))
      let statusParts := [tierText, typeText].filterMap (fun x => x)
      let status :=
        if statusParts = [] then none else some (" · ".intercalate statusParts)
      let id :=
        "LEGACY_CS2-" ++
          (row.dataTimestamp.getD
            ((competition.getD "match") ++ "-" ++ (opponentText.getD "opponent")))
      let title :=
        match truthy opponentText with
        | some opp => "Legacy vs " ++ opp
        | none => competition.getD "Legacy match"
      let subtitleParts := [opponentText, competition].filterMap (fun x => x)
      let subtitle :=
        if subtitleParts = [] then none else some (" · ".intercalate subtitleParts)
      let hasNumericScore :=
        match scoreText with
        | some sc => sc.data.any Char.isDigit
        | none => false
      let result := if hasNumericScore then scoreText else none
      let outcome : Option CalendarOutcome :=
        if rowClasses.any (fun c => strContains c "bg-win") then some .WIN
        else if rowClasses.any (fun c => strContains c "bg-lose") then some .LOSS
        else if rowClasses.any (fun c => strContains c "bg-draw" || strContains c "bg-tie")
          then some .DRAW
        else none
      some
        { id := id
          source := .LEGACY_CS2
          title := title
          competition := competition
          startTimeUTC := startTimeUTC
          result := result
          status := status
          subtitle := subtitle
          url := url
          outcome := outcome }

/-- Row loop of `normalizeLegacyCs2Matches` with the `seen` id set:
rows whose constructed id was already pushed are skipped. -/
def normalizeLegacyLoop (env : TimeEnv) :
    List LegacyRow → List String → List CalendarEventWithMeta
  | [], _ => []
  | row :: rest, seen =>
    match legacyRowEvent env row with
    | none => normalizeLegacyLoop env rest seen
    | some ev =>
      if seen.contains ev.id then normalizeLegacyLoop env rest seen
      else ev :: normalizeLegacyLoop env rest (ev.id :: seen)

/-- Model of `normalizeLegacyCs2Matches(html)` after the external HTML parse:
the argument is the list of `<tr>` elements of the parsed document in
order; the class filter runs first, then the row loop. -/
def normalizeLegacyCs2Matches (env : TimeEnv) (trRows : List LegacyRow) :
    List CalendarEventWithMeta :=
  normalizeLegacyLoop env (trRows.filter legacyRowClassOk) []

/-- Stable insertion into an already-sorted accumulator: the new element
goes after every element `y` with `le y x` (so after elements that
compare equal), matching the stability guarantee of JS `sort`/`toSorted`. -/
def insertAfterLe {α : Type} (le : α → α → Bool) (x : α) : List α → List α
  | [] => [x]
  | y :: ys => if le y x then y :: insertAfterLe le x ys else x :: y :: ys

/-- Embedding of JS `Array.prototype.sort`/`toSorted` with a consistent
comparator `cmp`, given here as `le a b = (cmp a b ≤ 0)`: a stable sort
(insertion sort) with respect to `le`. -/
def stableSortBy {α : Type} (le : α → α → Bool) (l : List α) : List α :=
  l.foldl (fun acc x => insertAfterLe le x acc) []

/-- Comparator of `mergeAndSortEvents` (`aTime - bTime`), as the relation
`cmp a b ≤ 0`. -/
def timeLe (a b : CalendarEventWithMeta) : Bool :=
  decide (a.startTimeUTC ≤ b.startTimeUTC)

/-- Model of one `deduped.set(event.id, event)` step on a JS `Map` keyed by
`id`, rendered as the value list in map insertion order: an existing
key keeps its position and gets the new value, a new key is appended. -/
def mapSet (m : List CalendarEventWithMeta) (e : CalendarEventWithMeta) :
    List CalendarEventWithMeta :=
  if m.any (fun x => x.id == e.id) then
    m.map (fun x => if x.id == e.id then e else x)
  else m ++ [e]

/-- The nested `for` loops of `mergeAndSortEvents` filling the `deduped`
map. -/
def dedupById (sources : List (List CalendarEventWithMeta)) :
    List CalendarEventWithMeta :=
  sources.foldl (fun m list => list.foldl mapSet m) []

/-- Model of `mergeAndSortEvents(...sources)`: dedup by `id` into a `Map`
(later entries overwrite), then sort the values by start time. -/
def mergeAndSortEvents (sources : List (List CalendarEventWithMeta)) :
    List CalendarEventWithMeta :=
  stableSortBy timeLe (dedupById sources)

/-- The `SORT_ORDER` table from `src/lib/events-service.ts`. -/
def SORT_ORDER : CalendarSource → Int
  | .MANCHESTER_UNITED => 0
  | .LEEDS_UNITED => 1
  | .LEGACY_CS2 => 2
  | .UFC => 3

/-- Comparator of `sortEvents` (start time difference, ties broken by
`SORT_ORDER`), as the relation `cmp a b ≤ 0`. -/
def sortEventsLe (a b : CalendarEventWithMeta) : Bool :=
  decide (a.startTimeUTC < b.startTimeUTC) ||
    (decide (a.startTimeUTC = b.startTimeUTC) &&
      decide (SORT_ORDER a.source ≤ SORT_ORDER b.source))

/-- Model of `sortEvents(events)` (`events.toSorted(...)`). -/
def sortEvents (events : List CalendarEventWithMeta) : List CalendarEventWithMeta :=
  stableSortBy sortEventsLe events

/-- Model of `getCalendarEvents` from `src/lib/events-service.ts`: a
`Promise.all` join of the four per-source fetches, then `sortEvents` of
the concatenation.  The arguments are the settled outcomes of the four
fetch promises; `Promise.all` rejects as soon as any input rejects
(which rejection reason wins is a matter of timing — the embedding picks
the leftmost), and the `cache(...)` wrapper only memoizes the call. -/
def getCalendarEvents
    (manUnited leeds legacyCs2 ufc : Except FetchError (List CalendarEventWithMeta)) :
    Except FetchError (List CalendarEventWithMeta) :=
  match manUnited, leeds, legacyCs2, ufc with
  | .ok m, .ok l, .ok lc, .ok u => .ok (sortEvents (m ++ l ++ lc ++ u))
  | .error e, _, _, _ => .error e
  | _, .error e, _, _ => .error e
  | _, _, .error e, _ => .error e
  | _, _, _, .error e => .error e

/-- The rest-destructuring of the route handler:
`const { venue, location, status, subtitle, ...publicFields } = event`.
Exactly those four properties are removed; every other property —
including the extended-only `url` — stays in `publicFields`. -/
def publicFields (event : CalendarEventWithMeta) : CalendarEventWithMeta :=
  { event with venue := none, location := none, status := none, subtitle := none }

/-- Response of the calendar API route, as far as the embedding observes
it: HTTP status, the `events` payload of the 200 branch, and the error
payload of the 500 branch. -/
structure ApiResponse where
  status : Nat
  events : Option (List CalendarEventWithMeta) := none
  errorMessage : Option String := none
deriving DecidableEq, Repr

/-- Model of the route handler `GET` of the calendar API: on a fulfilled
aggregation, a 200 response with the public-shaped events under the
`events` key; on a rejected aggregation, a 500 response with the generic
error payload. -/
def GET (aggregated : Except FetchError (List CalendarEventWithMeta)) : ApiResponse :=
  match aggregated with
  | .ok events => { status := 200, events := some (events.map publicFields) }
  | .error _ => { status := 500, errorMessage := some "Failed to load events" }

/-- The endpoint loop of `fetchTeamSchedule`, carrying `lastError`.  A
successful response is returned when it has at least one event or the
endpoint is the last one; an empty earlier response falls through; a
failure records `lastError` and falls through; after the loop the
recorded error, if any, is thrown, otherwise `null` is returned. -/
def scheduleLoop (net : String → Except FetchError RawTeamSchedule) :
    List String → Option FetchError → Except FetchError (Option RawTeamSchedule)
  | [], lastError =>
    match lastError with
    | some e => .error e
    | none => .ok none
  | endpoint :: rest, lastError =>
    match net endpoint with
    | .ok data =>
      if decide (0 < (data.events.getD []).length) || rest.isEmpty then .ok (some data)
      else scheduleLoop net rest lastError
    | .error e => scheduleLoop net rest (some e)

/-- Model of `fetchTeamSchedule(source)` over the network oracle `net` (the
schedule endpoints are fetched without query parameters). -/
def fetchTeamSchedule (net : String → Except FetchError RawTeamSchedule)
    (source : TeamSourceKey) : Except FetchError (Option RawTeamSchedule) :=
  scheduleLoop net (TEAM_SOURCES source).endpoints none

/-- Model of `buildSoccerScoreboardUrl(endpoint)`: the endpoint plus the
`limit` and `dates` query parameters over the default window. -/
def buildSoccerScoreboardUrl (env : TimeEnv) (endpoint : String) : String :=
  let earliest := env.subMonths env.now DEFAULT_RANGE_MONTHS_BEHIND
  let latest := env.addMonths env.now DEFAULT_RANGE_MONTHS_AHEAD
  endpoint ++ "?limit=200&dates=" ++ env.fmtYMD earliest ++ "-" ++ env.fmtYMD latest

/-- The per-event qualification test of the scoreboard loop: some
competitor of the first competition carries our team id. -/
def scoreboardMatchesTeam (teamId : String) (event : RawTeamEvent) : Bool :=
  (eventCompetitors event).any (fun c => c.team.bind (·.id) == some teamId)

/-- One endpoint step of `fetchTeamScoreboardEvents`: on success, append
the qualifying events to the accumulator; on failure, record the error. -/
def scoreboardStep (env : TimeEnv)
    (net : String → Except FetchError RawSoccerScoreboard) (teamId : String)
    (acc : List RawTeamEvent × Option FetchError) (endpoint : String) :
    List RawTeamEvent × Option FetchError :=
  match net (buildSoccerScoreboardUrl env endpoint) with
  | .ok data => (acc.1 ++ (data.events.getD []).filter (scoreboardMatchesTeam teamId), acc.2)
  | .error e => (acc.1, some e)

/-- The finished fold of the scoreboard endpoint loop: the aggregated
qualifying events and the last recorded error. -/
def scoreboardFold (env : TimeEnv)
    (net : String → Except FetchError RawSoccerScoreboard) (source : TeamSourceKey) :
    List RawTeamEvent × Option FetchError :=
  ((TEAM_SOURCES source).scoreboardEndpoints).foldl
    (scoreboardStep env net (TEAM_SOURCES source).teamId) ([], none)

/-- Model of `fetchTeamScoreboardEvents(source)`: early `[]` when the config
has no scoreboard endpoints; after the loop, throw the recorded error
only when nothing was aggregated, else return the aggregate. -/
def fetchTeamScoreboardEvents (env : TimeEnv)
    (net : String → Except FetchError RawSoccerScoreboard) (source : TeamSourceKey) :
    Except FetchError (List RawTeamEvent) :=
  if ((TEAM_SOURCES source).scoreboardEndpoints).isEmpty then .ok []
  else
    let folded := scoreboardFold env net source
    match folded.1, folded.2 with
    | [], some e => .error e
    | agg, _ => .ok agg

/-- Concrete clock/calendar instance for witnesses: `now` is instant 0,
a "month" spans 100 instants, date formatting and URL resolution are
simple concrete functions.  Default window: `[-100, 600]`; legacy
window: `[-300, 1800]`. -/
def envDemo : TimeEnv :=
  { now := 0
    subMonths := fun n k => n - k * 100
    addMonths := fun n k => n + k * 100
    fmtYMD := fun _ => "D"
    resolveUrl := fun href => "https://liquipedia.net/" ++ href }

/-- Concrete canonical event (club source, start 10). -/
def demoEvtA : CalendarEventWithMeta :=
  { id := "A", source := .MANCHESTER_UNITED, title := "a", startTimeUTC := 10 }

/-- Concrete canonical event (club source, start 5). -/
def demoEvtB : CalendarEventWithMeta :=
  { id := "B", source := .LEEDS_UNITED, title := "b", startTimeUTC := 5 }

/-- Concrete canonical event (esports source, start 7). -/
def demoEvtC : CalendarEventWithMeta :=
  { id := "C", source := .LEGACY_CS2, title := "c", startTimeUTC := 7 }

/-- Concrete canonical event carrying every extended-only field,
including a `url`. -/
def demoUrlEvt : CalendarEventWithMeta :=
  { id := "U", source := .UFC, title := "u", startTimeUTC := 1
    venue := some "V", location := some "L", status := some "S"
    url := some "https://liquipedia.net/x", subtitle := some "T" }

/-- Concluded club fixture whose two competitors report the present but
non-numeric scores `"A"` and `"B"`, with a textual status detail
`"Abandoned"` available. -/
def rawC3 : RawTeamEvent :=
  { id := some "100"
    competitions := some
      [{ date := some (some 0)
         competitors := some
           [{ homeAway := some "home"
              team := some { id := some "360", displayName := some "Manchester United" }
              score := some "A" },
            { homeAway := some "away"
              team := some { id := some "1", displayName := some "Arsenal" }
              score := some "B" }]
         status := some { type := some { state := some "post", detail := some "Abandoned" } } }] }

/-- Concluded club fixture with numeric scores `"2"` and `"1"` for the
tracked club at home. -/
def rawC3win : RawTeamEvent :=
  { id := some "101"
    competitions := some
      [{ date := some (some 0)
         competitors := some
           [{ homeAway := some "home"
              team := some { id := some "360", displayName := some "Manchester United" }
              score := some "2" },
            { homeAway := some "away"
              team := some { id := some "1", displayName := some "Arsenal" }
              score := some "1" }]
         status := some { type := some { state := some "post", detail := some "FT" } } }] }

/-- The canonical event `rawC3win` normalizes to. -/
def demoC3winEvt : CalendarEventWithMeta :=
  { id := "MANCHESTER_UNITED-101"
    source := .MANCHESTER_UNITED
    title := "Manchester United vs Arsenal"
    startTimeUTC := 0
    result := some "2 - 1"
    outcome := some .WIN
    status := some "FT"
    subtitle := some "Arsenal" }

/-- Scoreboard network oracle for the Leeds United configuration: the
first (eng.1) endpoint succeeds with an empty event list, the second
(eng.2) endpoint rejects. -/
def netScoreC4 : String → Except FetchError RawSoccerScoreboard := fun u =>
  if u = buildSoccerScoreboardUrl envDemo
      "https://site.api.espn.com/apis/site/v2/sports/soccer/eng.1/scoreboard"
  then .ok { events := some [] }
  else .error "scoreboard down"

/-- Schedule network oracle for the Leeds United configuration: the
first (eng.1) endpoint succeeds with an empty event list, the second
(eng.2) endpoint rejects. -/
def netSchedC5 : String → Except FetchError RawTeamSchedule := fun u =>
  if u = "https://site.api.espn.com/apis/site/v2/sports/soccer/eng.1/teams/357/schedule"
  then .ok { events := some [] }
  else .error "schedule down"

/-- Raw club event timestamped exactly at the inclusive upper boundary
of the default window of `envDemo` (no competition entry, so the
event-level date is used). -/
def rawBoundary : RawTeamEvent :=
  { id := some "b", date := some (some 600) }

/-- The canonical event `rawBoundary` normalizes to. -/
def demoBoundaryEvt : CalendarEventWithMeta :=
  { id := "MANCHESTER_UNITED-b"
    source := .MANCHESTER_UNITED
    title := "Manchester United vs TBD"
    startTimeUTC := 600
    subtitle := some "TBD" }

/-- Qualifying roster-page row (class marker and in-window timestamp)
with exactly 7 cells. -/
def rowC9 : LegacyRow :=
  { classAttr := some "match-row"
    dataTimestamp := some "0"
    cells := List.replicate 7 { textContent := some "x" } }

/-- Qualifying roster-page row with only 6 cells. -/
def rowC9short : LegacyRow :=
  { classAttr := some "match-row"
    dataTimestamp := some "0"
    cells := List.replicate 6 { textContent := some "x" } }

/-- UFC payload whose single event has an in-window date and a present
but empty-string `name`. -/
def ufcC10 : RawUfcScoreboard :=
  { events := some [{ id := some "1", date := some (some 0), name := some "" }] }

/-- UFC payload whose single event has an in-window date and a missing
`name` field. -/
def ufcC10ok : RawUfcScoreboard :=
  { events := some [{ id := some "2", date := some (some 0), competitions := some [] }] }

/-- Rejection of a schedule endpoint at a non-final position of the
`fetchTeamSchedule` loop: the fetch failed, or it succeeded with an
empty event list (so the loop falls through to the next endpoint). -/
def schedRejected (net : String → Except FetchError RawTeamSchedule)
    (ep : String) : Bool :=
  match net ep with
  | .error _ => true
  | .ok data => (data.events.getD []).isEmpty

/-- The canonical event `ufcC10ok` normalizes to. -/
def demoUfcOkEvt : CalendarEventWithMeta :=
  { id := "UFC-2", source := .UFC, title := "UFC Event", startTimeUTC := 0 }

theorem insertAfterLe_perm {α : Type} (le : α → α → Bool) (x : α) (l : List α) :
    (insertAfterLe le x l).Perm (x :: l) := by
  induction l with
  | nil => simp [insertAfterLe]
  | cons y ys ih =>
    simp only [insertAfterLe]
    split
    · exact (ih.cons y).trans (List.Perm.swap x y ys)
    · exact List.Perm.refl _

theorem stableSortBy_foldl_perm {α : Type} (le : α → α → Bool) :
    ∀ (l acc : List α),
      (l.foldl (fun a x => insertAfterLe le x a) acc).Perm (l ++ acc) := by
  intro l
  induction l with
  | nil => intro acc; simp
  | cons x xs ih =>
    intro acc
    have h1 := ih (insertAfterLe le x acc)
    have h2 : (xs ++ insertAfterLe le x acc).Perm (xs ++ x :: acc) :=
      List.Perm.append_left xs (insertAfterLe_perm le x acc)
    have h3 : (xs ++ x :: acc).Perm (x :: (xs ++ acc)) := List.perm_middle
    simpa using h1.trans (h2.trans h3)

theorem stableSortBy_perm {α : Type} (le : α → α → Bool) (l : List α) :
    (stableSortBy le l).Perm l := by
  simpa [stableSortBy] using stableSortBy_foldl_perm le l []

theorem insertAfterLe_pairwise {α : Type} {le : α → α → Bool}
    (htot : ∀ a b, le a b = false → le b a = true)
    (htrans : ∀ a b c, le a b = true → le b c = true → le a c = true)
    (x : α) :
    ∀ {l : List α}, l.Pairwise (fun a b => le a b = true) →
      (insertAfterLe le x l).Pairwise (fun a b => le a b = true) := by
  intro l
  induction l with
  | nil => intro _; simp [insertAfterLe]
  | cons y ys ih =>
    intro hp
    rw [List.pairwise_cons] at hp
    obtain ⟨hy, hys⟩ := hp
    simp only [insertAfterLe]
    split
    case isTrue hle =>
      rw [List.pairwise_cons]
      refine ⟨?_, ih hys⟩
      intro z hz
      rcases List.mem_cons.mp ((insertAfterLe_perm le x ys).mem_iff.mp hz) with h | h
      · rw [h]; exact hle
      · exact hy z h
    case isFalse hle =>
      have hyx : le y x = false := by
        cases hxy : le y x
        · rfl
        · exact absurd hxy hle
      rw [List.pairwise_cons]
      refine ⟨?_, List.pairwise_cons.mpr ⟨hy, hys⟩⟩
      intro z hz
      rcases List.mem_cons.mp hz with h | h
      · rw [h]; exact htot y x hyx
      · exact htrans x y z (htot y x hyx) (hy z h)

theorem stableSortBy_pairwise {α : Type} {le : α → α → Bool}
    (htot : ∀ a b, le a b = false → le b a = true)
    (htrans : ∀ a b c, le a b = true → le b c = true → le a c = true)
    (l : List α) :
    (stableSortBy le l).Pairwise (fun a b => le a b = true) := by
  suffices h : ∀ (m acc : List α), acc.Pairwise (fun a b => le a b = true) →
      (m.foldl (fun a x => insertAfterLe le x a) acc).Pairwise
        (fun a b => le a b = true) by
    exact h l [] (by simp)
  intro m
  induction m with
  | nil => intro acc h; simpa using h
  | cons x xs ih =>
    intro acc h
    exact ih _ (insertAfterLe_pairwise htot htrans x h)

theorem sortEventsLe_total (a b : CalendarEventWithMeta) :
    sortEventsLe a b = false → sortEventsLe b a = true := by
  simp only [sortEventsLe, Bool.or_eq_true, Bool.and_eq_true, decide_eq_true_eq,
    Bool.or_eq_false_iff, Bool.and_eq_false_iff, decide_eq_false_iff_not]
  omega

theorem sortEventsLe_trans (a b c : CalendarEventWithMeta) :
    sortEventsLe a b = true → sortEventsLe b c = true → sortEventsLe a c = true := by
  simp only [sortEventsLe, Bool.or_eq_true, Bool.and_eq_true, decide_eq_true_eq]
  omega

theorem timeLe_total (a b : CalendarEventWithMeta) :
    timeLe a b = false → timeLe b a = true := by
  simp only [timeLe, decide_eq_true_eq, decide_eq_false_iff_not]
  omega

theorem timeLe_trans (a b c : CalendarEventWithMeta) :
    timeLe a b = true → timeLe b c = true → timeLe a c = true := by
  simp only [timeLe, decide_eq_true_eq]
  omega

theorem mapSet_map_id (m : List CalendarEventWithMeta) (e : CalendarEventWithMeta) :
    (mapSet m e).map (fun x => x.id) =
      if m.any (fun x => x.id == e.id) then m.map (fun x => x.id)
      else m.map (fun x => x.id) ++ [e.id] := by
  unfold mapSet
  split
  case isTrue h =>
    rw [List.map_map]
    refine List.map_congr_left ?_
    intro a _
    by_cases ha : a.id == e.id
    · simp only [Function.comp_apply, if_pos ha]
      exact (beq_iff_eq.mp ha).symm
    · simp only [Function.comp_apply, if_neg ha]
  case isFalse h =>
    simp

theorem mapSet_nodup (m : List CalendarEventWithMeta) (e : CalendarEventWithMeta)
    (h : (m.map (fun x => x.id)).Nodup) :
    ((mapSet m e).map (fun x => x.id)).Nodup := by
  rw [mapSet_map_id]
  split
  · exact h
  case isFalse hany =>
    rw [List.nodup_append]
    refine ⟨h, List.nodup_singleton _, ?_⟩
    intro a ha hae
    rcases List.mem_map.mp ha with ⟨x, hx, hxid⟩
    rcases List.mem_singleton.mp hae with rfl
    have : ∀ x ∈ m, ¬(x.id == e.id) = true := by
      intro x hxm
      intro hb
      exact hany (List.any_eq_true.mpr ⟨x, hxm, hb⟩)
    exact this x hx (beq_iff_eq.mpr hxid)

theorem filter_of_nodup_mem {m : List CalendarEventWithMeta}
    {y : CalendarEventWithMeta} {i : String}
    (hnd : (m.map (fun x => x.id)).Nodup) (hy : y ∈ m) (hyi : y.id = i) :
    m.filter (fun x => x.id == i) = [y] := by
  induction m with
  | nil => cases hy
  | cons z zs ih =>
    rw [List.map_cons, List.nodup_cons] at hnd
    obtain ⟨hzid, hzs⟩ := hnd
    rcases List.mem_cons.mp hy with rfl | hyzs
    · rw [List.filter_cons_of_pos (by simp [hyi])]
      have hnil : List.filter (fun x => x.id == i) zs = [] := by
        rw [List.filter_eq_nil_iff]
        intro a ha hai
        exact hzid (List.mem_map.mpr ⟨a, ha, by rw [beq_iff_eq.mp hai, ← hyi]⟩)
      rw [hnil]
    · have hpz : (z.id == i) = false := by
        refine beq_eq_false_iff_ne.mpr ?_
        intro hzi
        exact hzid (List.mem_map.mpr ⟨y, hyzs, by rw [hyi, hzi]⟩)
      rw [List.filter_cons_of_neg (by simp [hpz])]
      exact ih hzs hyzs

theorem filter_mapSet (m : List CalendarEventWithMeta) (e : CalendarEventWithMeta)
    (i : String) (hnd : (m.map (fun x => x.id)).Nodup) :
    (mapSet m e).filter (fun x => x.id == i) =
      if e.id == i then [e] else m.filter (fun x => x.id == i) := by
  unfold mapSet
  split
  case isTrue hany =>
    obtain ⟨y, hy, hyb⟩ := List.any_eq_true.mp hany
    have hcomp :
        List.filter (fun x => x.id == i) (m.map (fun x => if x.id == e.id then e else x)) =
          (m.filter (fun x => x.id == i)).map (fun x => if x.id == e.id then e else x) := by
      rw [List.filter_map]
      congr 1
      refine List.filter_congr ?_
      intro a _
      by_cases ha : a.id == e.id
      · simp only [Function.comp_apply, if_pos ha]
        rw [beq_iff_eq.mp ha]
      · simp only [Function.comp_apply, if_neg ha]
    rw [hcomp]
    by_cases hei : e.id == i
    · rw [if_pos hei]
      have hym : m.filter (fun x => x.id == i) = [y] :=
        filter_of_nodup_mem hnd hy (by rw [beq_iff_eq.mp hyb]; exact beq_iff_eq.mp hei)
      rw [hym, List.map_singleton, if_pos hyb]
    · rw [if_neg hei]
      conv_rhs => rw [← List.map_id (m.filter (fun x => x.id == i))]
      refine List.map_congr_left ?_
      intro a ha
      have hai : (a.id == i) = true := (List.mem_filter.mp ha).2
      have hne : (a.id == e.id) = false := by
        refine beq_eq_false_iff_ne.mpr ?_
        intro hae
        exact hei (by rw [← hae]; exact hai)
      simp [hne]
  case isFalse hany =>
    have hnone : ∀ x ∈ m, (x.id == e.id) = false := by
      intro x hx
      cases hb : (x.id == e.id)
      · rfl
      · exact absurd (List.any_eq_true.mpr ⟨x, hx, hb⟩) hany
    rw [List.filter_append]
    by_cases hei : e.id == i
    · rw [if_pos hei]
      have hmnil : m.filter (fun x => x.id == i) = [] := by
        rw [List.filter_eq_nil_iff]
        intro a ha hai
        have : (a.id == e.id) = true := by
          rw [beq_iff_eq.mp hai]  -- a.id = i
          exact beq_iff_eq.mpr (beq_iff_eq.mp hei).symm
        rw [hnone a ha] at this
        exact Bool.false_ne_true this
      rw [hmnil]
      simp [List.filter_cons, hei]
    · rw [if_neg hei]
      simp [List.filter_cons, hei]

theorem foldl_mapSet_nodup :
    ∀ (l m : List CalendarEventWithMeta), (m.map (fun x => x.id)).Nodup →
      ((l.foldl mapSet m).map (fun x => x.id)).Nodup := by
  intro l
  induction l with
  | nil => intro m h; exact h
  | cons x xs ih => intro m h; exact ih (mapSet m x) (mapSet_nodup m x h)

theorem foldl_mapSet_filter (i : String) :
    ∀ (l m : List CalendarEventWithMeta), (m.map (fun x => x.id)).Nodup →
      (l.foldl mapSet m).filter (fun x => x.id == i) =
        ((l.filter (fun x => x.id == i)).getLast?).elim
          (m.filter (fun x => x.id == i)) (fun e => [e]) := by
  intro l
  induction l with
  | nil => intro m _; simp
  | cons x xs ih =>
    intro m hnd
    have step := ih (mapSet m x) (mapSet_nodup m x hnd)
    rw [List.foldl_cons, step, filter_mapSet m x i hnd]
    cases hxs : xs.filter (fun e => e.id == i) with
    | nil =>
      by_cases hpx : (x.id == i) = true
      · simp [List.filter_cons, hxs, hpx]
      · simp [List.filter_cons, hxs, hpx]
    | cons c cs =>
      have hlast : ∃ e, (c :: cs).getLast? = some e := by
        rcases hg : (c :: cs).getLast? with _ | e
        · simp at hg
        · exact ⟨e, rfl⟩
      obtain ⟨e, he⟩ := hlast
      by_cases hpx : (x.id == i) = true
      · simp [List.filter_cons, hxs, hpx, List.getLast?_cons_cons, he]
      · simp [List.filter_cons, hxs, hpx, he]

theorem dedupById_eq_flatten_foldl :
    ∀ (sources : List (List CalendarEventWithMeta)) (m : List CalendarEventWithMeta),
      sources.foldl (fun m list => list.foldl mapSet m) m =
        (sources.flatten).foldl mapSet m := by
  intro sources
  induction sources with
  | nil => intro m; simp
  | cons l ls ih =>
    intro m
    rw [List.foldl_cons, ih, List.flatten_cons, List.foldl_append]

/-- Claim C6: merging canonical-event lists (`mergeAndSortEvents`) is
deduplication by `id` with last-write-wins — every id occurs at most once
in the output (the output id list is nodup), and the entries kept for an
id `i` is exactly the last entry carrying `i` in the concatenation of the
input lists in merge order (none when `i` never occurs); in particular an id
shared between an earlier and a later list keeps the later list's entry. -/
theorem claim_C6_merge_dedup_last_write_wins
    (sources : List (List CalendarEventWithMeta)) (i : String) :
    ((mergeAndSortEvents sources).map (fun e => e.id)).Nodup ∧
    (mergeAndSortEvents sources).filter (fun e => e.id == i) =
      ((sources.flatten.filter (fun e => e.id == i)).getLast?).toList := by
  have hperm : (mergeAndSortEvents sources).Perm (dedupById sources) :=
    stableSortBy_perm timeLe (dedupById sources)
  have hnd : ((dedupById sources).map (fun x => x.id)).Nodup := by
    rw [dedupById, dedupById_eq_flatten_foldl]
    exact foldl_mapSet_nodup _ [] (by simp)
  constructor
  · exact (List.Perm.nodup_iff (hperm.map _)).mpr hnd
  · have hfd : (dedupById sources).filter (fun e => e.id == i) =
        ((sources.flatten.filter (fun e => e.id == i)).getLast?).elim []
          (fun e => [e]) := by
      rw [dedupById, dedupById_eq_flatten_foldl]
      simpa using foldl_mapSet_filter i (sources.flatten) [] (by simp)
    have hpf := List.Perm.filter (fun e => e.id == i) hperm
    rw [hfd] at hpf
    cases hl : (sources.flatten.filter (fun e => e.id == i)).getLast? with
    | none =>
      rw [hl] at hpf
      simp only [Option.elim] at hpf
      simp only [Option.toList]
      exact List.perm_nil.mp hpf
    | some e =>
      rw [hl] at hpf
      simp only [Option.elim] at hpf
      simp only [Option.toList]
      exact List.perm_singleton.mp hpf

/-- Claim C7: in the final aggregated feed produced by `getCalendarEvents`,
for any two positions: the event with the strictly earlier `startTimeUTC`
precedes, and at equal start times the event whose source has the lower
`SORT_ORDER` rank (`MANCHESTER_UNITED < LEEDS_UNITED < LEGACY_CS2 < UFC`)
precedes. -/
theorem claim_C7_feed_sort_order
    (manUnited leeds legacyCs2 ufc : Except FetchError (List CalendarEventWithMeta))
    (out : List CalendarEventWithMeta)
    (hout : getCalendarEvents manUnited leeds legacyCs2 ufc = .ok out)
    (i j : Nat) (hi : i < out.length) (hj : j < out.length) :
    ((out.get ⟨i, hi⟩).startTimeUTC < (out.get ⟨j, hj⟩).startTimeUTC → i < j) ∧
    ((out.get ⟨i, hi⟩).startTimeUTC = (out.get ⟨j, hj⟩).startTimeUTC →
      SORT_ORDER (out.get ⟨i, hi⟩).source < SORT_ORDER (out.get ⟨j, hj⟩).source →
      i < j) := by
  have hsorted : out.Pairwise (fun a b => sortEventsLe a b = true) := by
    cases manUnited with
    | error e => simp [getCalendarEvents] at hout
    | ok m =>
      cases leeds with
      | error e => simp [getCalendarEvents] at hout
      | ok l =>
        cases legacyCs2 with
        | error e => simp [getCalendarEvents] at hout
        | ok lc =>
          cases ufc with
          | error e => simp [getCalendarEvents] at hout
          | ok u =>
            have heq : sortEvents (m ++ l ++ lc ++ u) = out := by
              simpa [getCalendarEvents] using hout
            rw [← heq]
            exact stableSortBy_pairwise sortEventsLe_total sortEventsLe_trans _
  have hpg := List.pairwise_iff_get.mp hsorted
  constructor
  · intro hlt
    rcases Nat.lt_trichotomy i j with h | h | h
    · exact h
    · subst h
      exact absurd hlt (lt_irrefl _)
    · have hp := hpg ⟨j, hj⟩ ⟨i, hi⟩ (Fin.mk_lt_mk.mpr h)
      simp only [sortEventsLe, Bool.or_eq_true, Bool.and_eq_true,
        decide_eq_true_eq] at hp
      omega
  · intro hteq hrank
    rcases Nat.lt_trichotomy i j with h | h | h
    · exact h
    · subst h
      exact absurd hrank (lt_irrefl _)
    · have hp := hpg ⟨j, hj⟩ ⟨i, hi⟩ (Fin.mk_lt_mk.mpr h)
      simp only [sortEventsLe, Bool.or_eq_true, Bool.and_eq_true,
        decide_eq_true_eq] at hp
      omega

/-- Witness for claim C7 at a concrete feed: two events with start times
5 and 10 end up in that order, so the earlier-time implication places the
earlier event strictly before the later one. -/
theorem claim_C7_feed_sort_order_witness : 0 < 1 := by
  have h : getCalendarEvents (.ok [demoEvtA, demoEvtB]) (.ok []) (.ok []) (.ok []) =
      .ok [demoEvtB, demoEvtA] := by rfl
  exact (claim_C7_feed_sort_order (.ok [demoEvtA, demoEvtB]) (.ok []) (.ok [])
    (.ok []) [demoEvtB, demoEvtA] h 0 1 (by decide) (by decide)).1 (by decide)

/-- Claim C1, amended: the aggregation call `getCalendarEvents` succeeds
exactly when all four source fetches succeed — `Promise.all` is
fail-fast, so any single rejection rejects the whole cycle (no partial
feed from the other three sources) — and the route then answers 500. -/
theorem claim_C1_all_or_nothing
    (manUnited leeds legacyCs2 ufc : Except FetchError (List CalendarEventWithMeta)) :
    (getCalendarEvents manUnited leeds legacyCs2 ufc).isOk =
      (manUnited.isOk && leeds.isOk && legacyCs2.isOk && ufc.isOk) ∧
    (GET (getCalendarEvents manUnited leeds legacyCs2 ufc)).status =
      (if (getCalendarEvents manUnited leeds legacyCs2 ufc).isOk then 200 else 500) := by
  cases manUnited <;> cases leeds <;> cases legacyCs2 <;> cases ufc <;>
    simp [getCalendarEvents, GET, Except.isOk, Except.toBool]

/-- Counterexample to claim C1 as stated: exactly one of the four source
fetches rejects (the UFC one) while the other three succeed with events,
yet the aggregation call itself rejects — the cycle does not succeed and
no feed containing the other three sources' events is produced — and the
read endpoint answers 500. -/
theorem claim_C1_counterexample :
    (getCalendarEvents (.ok [demoEvtA]) (.ok [demoEvtB]) (.ok [demoEvtC])
        (.error "ufc down")).isOk = false ∧
    getCalendarEvents (.ok [demoEvtA]) (.ok [demoEvtB]) (.ok [demoEvtC])
        (.error "ufc down") = .error "ufc down" ∧
    (GET (getCalendarEvents (.ok [demoEvtA]) (.ok [demoEvtB]) (.ok [demoEvtC])
        (.error "ufc down"))).status = 500 := by
  exact ⟨rfl, rfl, rfl⟩

/-- Claim C2, amended: the public-shaped record returned by the read
endpoint omits exactly the four fields `venue`, `location`, `status`,
`subtitle`, and leaves every other field — `id`, `source`, `title`,
`competition`, `fighters`, `startTimeUTC`, `result`, `outcome`, and also
the extended-only `url` — unchanged from the full internal record. -/
theorem claim_C2_public_shape
    (e : CalendarEventWithMeta) (events : List CalendarEventWithMeta) :
    (GET (.ok events)).events = some (events.map publicFields) ∧
    (publicFields e).venue = none ∧ (publicFields e).location = none ∧
    (publicFields e).status = none ∧ (publicFields e).subtitle = none ∧
    (publicFields e).id = e.id ∧ (publicFields e).source = e.source ∧
    (publicFields e).title = e.title ∧
    (publicFields e).competition = e.competition ∧
    (publicFields e).fighters = e.fighters ∧
    (publicFields e).startTimeUTC = e.startTimeUTC ∧
    (publicFields e).result = e.result ∧ (publicFields e).outcome = e.outcome ∧
    (publicFields e).url = e.url := by
  exact ⟨rfl, rfl, rfl, rfl, rfl, rfl, rfl, rfl, rfl, rfl, rfl, rfl, rfl, rfl⟩

/-- Counterexample to claim C2 as stated: for an internal record carrying
a `url`, the public-shaped record returned by the read endpoint still
carries that `url` — the fifth "extended-only" field is not omitted. -/
theorem claim_C2_counterexample :
    (GET (.ok [demoUrlEvt])).events = some [publicFields demoUrlEvt] ∧
    demoUrlEvt.url = some "https://liquipedia.net/x" ∧
    (publicFields demoUrlEvt).url = some "https://liquipedia.net/x" ∧
    (publicFields demoUrlEvt).url ≠ none := by
  refine ⟨rfl, rfl, rfl, ?_⟩
  simp [publicFields, demoUrlEvt]


theorem normalizeTeamEvent_window (env : TimeEnv) (source : TeamSourceKey)
    (event : RawTeamEvent) (e : CalendarEventWithMeta)
    (h : normalizeTeamEvent env source event = some e) :
    env.subMonths env.now DEFAULT_RANGE_MONTHS_BEHIND ≤ e.startTimeUTC ∧
      e.startTimeUTC ≤ env.addMonths env.now DEFAULT_RANGE_MONTHS_AHEAD := by
  simp only [normalizeTeamEvent] at h
  split at h
  · simp at h
  · rename_i t heq
    split at h
    · simp at h
    · rename_i hw
      have he : e.startTimeUTC = t := by rw [← Option.some.inj h]
      have hwt : isWithinDefaultWindow env t = true := by
        cases hb : isWithinDefaultWindow env t
        · exact absurd hb hw
        · rfl
      simp only [isWithinDefaultWindow, isWithinWindow, Bool.and_eq_true,
        decide_eq_true_eq] at hwt
      rw [he]
      exact hwt

theorem normalizeUfcLoop_window (env : TimeEnv) :
    ∀ (events : List RawUfcEvent) (seen : List String) (e : CalendarEventWithMeta),
      e ∈ normalizeUfcLoop env events seen →
      env.subMonths env.now DEFAULT_RANGE_MONTHS_BEHIND ≤ e.startTimeUTC ∧
        e.startTimeUTC ≤ env.addMonths env.now DEFAULT_RANGE_MONTHS_AHEAD := by
  intro events
  induction events with
  | nil => intro seen e he; simp [normalizeUfcLoop] at he
  | cons event rest ih =>
    intro seen e he
    simp only [normalizeUfcLoop] at he
    split at he
    · exact ih seen e he
    · split at he
      · exact ih seen e he
      · split at he
        · exact ih _ e he
        · rename_i t heq
          split at he
          · exact ih _ e he
          · rename_i hw
            rcases List.mem_cons.mp he with hh | hh
            · have hwt : isWithinDefaultWindow env t = true := by
                cases hb : isWithinDefaultWindow env t
                · exact absurd hb hw
                · rfl
              simp only [isWithinDefaultWindow, isWithinWindow, Bool.and_eq_true,
                decide_eq_true_eq] at hwt
              rw [hh]
              exact hwt
            · exact ih _ e hh

theorem legacyRowEvent_window (env : TimeEnv) (row : LegacyRow)
    (e : CalendarEventWithMeta) (h : legacyRowEvent env row = some e) :
    env.subMonths env.now LEGACY_RANGE_MONTHS_BEHIND ≤ e.startTimeUTC ∧
      e.startTimeUTC ≤ env.addMonths env.now LEGACY_RANGE_MONTHS_AHEAD := by
  simp only [legacyRowEvent] at h
  split at h
  · simp at h
  · rename_i t heq
    split at h
    · simp at h
    · rename_i hw
      split at h
      · simp at h
      · have he : e.startTimeUTC = t := by rw [← Option.some.inj h]
        have hwt : isWithinWindow env t LEGACY_RANGE_MONTHS_AHEAD
            LEGACY_RANGE_MONTHS_BEHIND = true := by
          cases hb : isWithinWindow env t LEGACY_RANGE_MONTHS_AHEAD
              LEGACY_RANGE_MONTHS_BEHIND
          · exact absurd hb hw
          · rfl
        simp only [isWithinWindow, Bool.and_eq_true, decide_eq_true_eq] at hwt
        rw [he]
        exact hwt

theorem normalizeLegacyLoop_window (env : TimeEnv) :
    ∀ (rows : List LegacyRow) (seen : List String) (e : CalendarEventWithMeta),
      e ∈ normalizeLegacyLoop env rows seen →
      env.subMonths env.now LEGACY_RANGE_MONTHS_BEHIND ≤ e.startTimeUTC ∧
        e.startTimeUTC ≤ env.addMonths env.now LEGACY_RANGE_MONTHS_AHEAD := by
  intro rows
  induction rows with
  | nil => intro seen e he; simp [normalizeLegacyLoop] at he
  | cons row rest ih =>
    intro seen e he
    simp only [normalizeLegacyLoop] at he
    split at he
    · exact ih seen e he
    · rename_i ev hrow
      split at he
      · exact ih seen e he
      · rcases List.mem_cons.mp he with hh | hh
        · rw [hh]; exact legacyRowEvent_window env row ev hrow
        · exact ih _ e hh

/-- Claim C8: every canonical event produced by a normalizer carries a
valid start instant lying inside that source's configured window, both
boundaries inclusive — the default window (1 month behind, 6 months
ahead of now) for the club and UFC normalizers, the legacy window
(3 months behind, 18 months ahead) for the esports normalizer; raw
records with missing, unparseable or out-of-window dates are dropped and
never emitted. -/
theorem claim_C8_window_invariant :
    (∀ (env : TimeEnv) (events : Option (List RawTeamEvent)) (source : TeamSourceKey)
        (e : CalendarEventWithMeta), e ∈ normalizeTeamEvents env events source →
        env.subMonths env.now DEFAULT_RANGE_MONTHS_BEHIND ≤ e.startTimeUTC ∧
          e.startTimeUTC ≤ env.addMonths env.now DEFAULT_RANGE_MONTHS_AHEAD) ∧
    (∀ (env : TimeEnv) (data : RawUfcScoreboard) (e : CalendarEventWithMeta),
        e ∈ normalizeUfcEvents env data →
        env.subMonths env.now DEFAULT_RANGE_MONTHS_BEHIND ≤ e.startTimeUTC ∧
          e.startTimeUTC ≤ env.addMonths env.now DEFAULT_RANGE_MONTHS_AHEAD) ∧
    (∀ (env : TimeEnv) (trRows : List LegacyRow) (e : CalendarEventWithMeta),
        e ∈ normalizeLegacyCs2Matches env trRows →
        env.subMonths env.now LEGACY_RANGE_MONTHS_BEHIND ≤ e.startTimeUTC ∧
          e.startTimeUTC ≤ env.addMonths env.now LEGACY_RANGE_MONTHS_AHEAD) := by
  refine ⟨?_, ?_, ?_⟩
  · intro env events source e he
    obtain ⟨a, _, ha⟩ := List.mem_filterMap.mp he
    exact normalizeTeamEvent_window env source a e ha
  · intro env data e he
    exact normalizeUfcLoop_window env _ [] e he
  · intro env trRows e he
    exact normalizeLegacyLoop_window env _ [] e he

/-- Witness for claim C8: the raw club fixture `rawBoundary` is dated
exactly at the inclusive upper boundary (600) of the default window of
`envDemo` (`[-100, 600]`), is retained by the club normalizer, and the
claimed bounds hold for it. -/
theorem claim_C8_window_invariant_witness :
    envDemo.subMonths envDemo.now DEFAULT_RANGE_MONTHS_BEHIND ≤
        demoBoundaryEvt.startTimeUTC ∧
      demoBoundaryEvt.startTimeUTC ≤
        envDemo.addMonths envDemo.now DEFAULT_RANGE_MONTHS_AHEAD :=
  claim_C8_window_invariant.1 envDemo (some [rawBoundary]) .MANCHESTER_UNITED
    demoBoundaryEvt (by decide)

/-- Claim C3, amended: for a concluded club fixture (status state
`"post"`), whenever both competitors' score strings are present and
non-empty, `result` is `"{ourScore} - {theirScore}"` — regardless of
whether the scores parse numerically — and `outcome` is derived by
numeric comparison exactly when both parse (WIN when ours is greater,
LOSS when lesser, DRAW when equal), being omitted otherwise; the
fallback of `result` to the textual status detail/description applies
only when at least one score string is missing or empty. -/
theorem claim_C3_outcome_derivation (env : TimeEnv) (source : TeamSourceKey)
    (event : RawTeamEvent) (e : CalendarEventWithMeta)
    (h : normalizeTeamEvent env source event = some e)
    (hpost : (eventStatusType event).bind (·.state) = some "post") :
    (∀ focusScore opponentScore,
      truthy ((focusCompetitorOf (TEAM_SOURCES source) event).bind (·.score)) =
          some focusScore →
      truthy ((opponentCompetitorOf (TEAM_SOURCES source) event).bind (·.score)) =
          some opponentScore →
      e.result = some (focusScore ++ " - " ++ opponentScore) ∧
      e.outcome =
        (match extractNumericScore (some focusScore),
               extractNumericScore (some opponentScore) with
         | some focusNumeric, some opponentNumeric =>
           some (if focusNumeric > opponentNumeric then CalendarOutcome.WIN
                 else if focusNumeric < opponentNumeric then CalendarOutcome.LOSS
                 else CalendarOutcome.DRAW)
         | _, _ => none)) ∧
    ((truthy ((focusCompetitorOf (TEAM_SOURCES source) event).bind (·.score)) = none ∨
      truthy ((opponentCompetitorOf (TEAM_SOURCES source) event).bind (·.score)) = none) →
      e.outcome = none ∧
      e.result = (truthy ((eventStatusType event).bind (·.detail))).or
        (truthy ((eventStatusType event).bind (·.description)))) := by
  simp only [normalizeTeamEvent] at h
  split at h
  · simp at h
  · rename_i t heq
    split at h
    · simp at h
    · have hrec := Option.some.inj h
      subst hrec
      constructor
      · intro focusScore opponentScore hfs hos
        rcases hfn : extractNumericScore (some focusScore) with _ | fn <;>
          rcases hon : extractNumericScore (some opponentScore) with _ | op <;>
          refine ⟨?_, ?_⟩ <;> simp [hpost, hfs, hos, hfn, hon]
      · intro hnone
        rcases hnone with hf | ho
        · constructor
          · simp [hpost, hf]
          · simp [hpost, hf]
        · cases hf2 : truthy ((focusCompetitorOf (TEAM_SOURCES source) event).bind
              (·.score)) with
          | none =>
            constructor
            · simp [hpost, hf2]
            · simp [hpost, hf2]
          | some fs =>
            constructor
            · simp [hpost, hf2, ho]
            · simp [hpost, hf2, ho]

/-- Witness for claim C3 (amended): the concluded fixture `rawC3win`
with home score `"2"` and away score `"1"` for the tracked club yields
`result = "2 - 1"` and `outcome = WIN`. -/
theorem claim_C3_outcome_derivation_witness :
    demoC3winEvt.result = some "2 - 1" ∧
      demoC3winEvt.outcome = some CalendarOutcome.WIN := by
  have he : normalizeTeamEvent envDemo .MANCHESTER_UNITED rawC3win =
      some demoC3winEvt := by decide
  have h := claim_C3_outcome_derivation envDemo .MANCHESTER_UNITED rawC3win
    demoC3winEvt he (by decide)
  have h1 := h.1 "2" "1" (by decide) (by decide)
  refine ⟨h1.1, ?_⟩
  rw [h1.2]
  decide

/-- Counterexample to claim C3 as stated: a concluded fixture whose two
score strings `"A"` and `"B"` are present but non-numeric, with textual
status detail `"Abandoned"` available, produces
`result = "A - B"` (the score strings) and no outcome — the claimed
fallback of `result` to the textual status does not happen. -/
theorem claim_C3_counterexample :
    (normalizeTeamEvents envDemo (some [rawC3]) .MANCHESTER_UNITED).map
        (fun e => (e.result, e.outcome)) = [(some "A - B", none)] ∧
    (normalizeTeamEvents envDemo (some [rawC3]) .MANCHESTER_UNITED).map
        (fun e => e.result) ≠ [some "Abandoned"] := by
  constructor
  · rfl
  · decide

theorem scoreboardFoldl_snd_isSome (env : TimeEnv)
    (net : String → Except FetchError RawSoccerScoreboard) (teamId : String) :
    ∀ (eps : List String) (acc : List RawTeamEvent × Option FetchError),
      (eps.foldl (scoreboardStep env net teamId) acc).2.isSome = true ↔
        acc.2.isSome = true ∨
          ∃ ep ∈ eps, (net (buildSoccerScoreboardUrl env ep)).isOk = false := by
  intro eps
  induction eps with
  | nil => intro acc; simp
  | cons ep rest ih =>
    intro acc
    rw [List.foldl_cons, ih]
    cases hnet : net (buildSoccerScoreboardUrl env ep) with
    | ok data =>
      simp [scoreboardStep, hnet, Except.isOk, Except.toBool]
    | error e =>
      simp [scoreboardStep, hnet, Except.isOk, Except.toBool]

/-- Claim C4, amended: the club-scoreboard fetch propagates an error
exactly when no qualifying events were collected and at least one
scoreboard endpoint failed; whenever any qualifying event was collected,
or no endpoint failed, the fetch returns normally.  (In particular a
successful endpoint returning zero qualifying events does not protect
the call from a failure of another endpoint.) -/
theorem claim_C4_scoreboard_error_iff (env : TimeEnv)
    (net : String → Except FetchError RawSoccerScoreboard) (source : TeamSourceKey) :
    (fetchTeamScoreboardEvents env net source).isOk = false ↔
      ((scoreboardFold env net source).1 = [] ∧
        ∃ ep ∈ (TEAM_SOURCES source).scoreboardEndpoints,
          (net (buildSoccerScoreboardUrl env ep)).isOk = false) := by
  have hne : ((TEAM_SOURCES source).scoreboardEndpoints).isEmpty = false := by
    cases source <;> rfl
  have hex : ((scoreboardFold env net source).2.isSome = true) ↔
      ∃ ep ∈ (TEAM_SOURCES source).scoreboardEndpoints,
        (net (buildSoccerScoreboardUrl env ep)).isOk = false := by
    unfold scoreboardFold
    rw [scoreboardFoldl_snd_isSome]
    simp
  rcases hf2 : (scoreboardFold env net source).2 with _ | e
  · rw [hf2] at hex
    simp only [Option.isSome_none, Bool.false_eq_true, false_iff] at hex
    rcases hf1 : (scoreboardFold env net source).1 with _ | ⟨x, xs⟩ <;>
      simp [fetchTeamScoreboardEvents, hne, hf1, hf2, Except.isOk, Except.toBool, hex]
    intro x hx
    cases hn : net (buildSoccerScoreboardUrl env x) with
    | ok d => rfl
    | error e2 =>
      exact absurd ⟨x, hx, by simp [Except.isOk, Except.toBool, hn]⟩ hex
  · rw [hf2] at hex
    simp only [Option.isSome_some, true_iff] at hex
    rcases hf1 : (scoreboardFold env net source).1 with _ | ⟨x, xs⟩ <;>
      simp [fetchTeamScoreboardEvents, hne, hf1, hf2, Except.isOk, Except.toBool, hex]
    simpa [Except.isOk, Except.toBool] using hex

/-- Witness for claim C4 (amended): under `netScoreC4` the Leeds United
scoreboard fetch collects nothing, the eng.2 endpoint fails, and the
fetch therefore rejects. -/
theorem claim_C4_scoreboard_error_iff_witness :
    (fetchTeamScoreboardEvents envDemo netScoreC4 .LEEDS_UNITED).isOk = false :=
  (claim_C4_scoreboard_error_iff envDemo netScoreC4 .LEEDS_UNITED).mpr
    ⟨by decide,
     "https://site.api.espn.com/apis/site/v2/sports/soccer/eng.2/scoreboard",
     by decide, by decide⟩

/-- Counterexample to claim C4 as stated: for the two-endpoint Leeds
United configuration under `netScoreC4`, the first endpoint succeeds
(with zero qualifying events) — yet because the second endpoint fails
and nothing was collected, the fetch raises instead of returning
normally. -/
theorem claim_C4_counterexample :
    (netScoreC4 (buildSoccerScoreboardUrl envDemo
        "https://site.api.espn.com/apis/site/v2/sports/soccer/eng.1/scoreboard")).isOk =
      true ∧
    (fetchTeamScoreboardEvents envDemo netScoreC4 .LEEDS_UNITED).isOk = false ∧
    fetchTeamScoreboardEvents envDemo netScoreC4 .LEEDS_UNITED =
      .error "scoreboard down" := by
  exact ⟨rfl, rfl, rfl⟩

theorem scheduleLoop_ok_some_iff (net : String → Except FetchError RawTeamSchedule) :
    ∀ (eps : List String) (le : Option FetchError) (d : RawTeamSchedule),
      scheduleLoop net eps le = .ok (some d) ↔
        ∃ pre ep post, eps = pre ++ ep :: post ∧ net ep = .ok d ∧
          ((d.events.getD []) ≠ [] ∨ post = []) ∧
          ∀ p ∈ pre, schedRejected net p = true := by
  intro eps
  induction eps with
  | nil =>
    intro le d
    constructor
    · intro h
      cases le with
      | none => simp [scheduleLoop] at h
      | some e => simp [scheduleLoop] at h
    · rintro ⟨pre, ep, post, hsplit, -, -, -⟩
      exact absurd hsplit (by simp)
  | cons a rest ih =>
    intro le d
    constructor
    · intro h
      simp only [scheduleLoop] at h
      split at h
      · rename_i data hn
        split at h
        · rename_i hacc
          have hd : data = d := Option.some.inj (Except.ok.inj h)
          subst hd
          refine ⟨[], a, rest, by simp, hn, ?_, by simp⟩
          simp only [Bool.or_eq_true, decide_eq_true_eq, List.isEmpty_iff] at hacc
          rcases hacc with h1 | h1
          · left
            intro hnil
            rw [hnil] at h1
            simp at h1
          · right
            exact h1
        · rename_i hacc
          obtain ⟨pre, ep, post, hsplit, hnet, hcond, hrej⟩ := (ih le d).mp h
          refine ⟨a :: pre, ep, post, by rw [hsplit]; rfl, hnet, hcond, ?_⟩
          intro p hp
          rcases List.mem_cons.mp hp with rfl | hp2
          · simp only [Bool.or_eq_true, decide_eq_true_eq, not_or] at hacc
            simp only [schedRejected, hn, List.isEmpty_iff]
            have := hacc.1
            cases hev : data.events.getD [] with
            | nil => rfl
            | cons y ys => rw [hev] at this; simp at this
          · exact hrej p hp2
      · rename_i e hn
        obtain ⟨pre, ep, post, hsplit, hnet, hcond, hrej⟩ := (ih (some e) d).mp h
        refine ⟨a :: pre, ep, post, by rw [hsplit]; rfl, hnet, hcond, ?_⟩
        intro p hp
        rcases List.mem_cons.mp hp with rfl | hp2
        · simp [schedRejected, hn]
        · exact hrej p hp2
    · rintro ⟨pre, ep, post, hsplit, hnet, hcond, hrej⟩
      cases pre with
      | nil =>
        simp only [List.nil_append] at hsplit
        rw [hsplit]
        have hacc : (decide (0 < (d.events.getD []).length) || post.isEmpty) = true := by
          rcases hcond with h1 | h1
          · have hlen : 0 < (d.events.getD []).length := by
              cases hev : d.events.getD [] with
              | nil => exact absurd hev h1
              | cons y ys => simp
            simp [hlen]
          · simp [h1]
        simp only [scheduleLoop, hnet]
        rw [if_pos hacc]
      | cons q pre2 =>
        simp only [List.cons_append] at hsplit
        obtain ⟨rfl, hrest⟩ := List.cons.inj hsplit
        have hq : schedRejected net a = true := hrej a (List.mem_cons_self a pre2)
        have hrej2 : ∀ p ∈ pre2, schedRejected net p = true := fun p hp =>
          hrej p (List.mem_cons_of_mem a hp)
        have hrec : ∀ le2, scheduleLoop net rest le2 = .ok (some d) := by
          intro le2
          exact (ih le2 d).mpr ⟨pre2, ep, post, hrest, hnet, hcond, hrej2⟩
        simp only [scheduleLoop]
        unfold schedRejected at hq
        split
        · rename_i data hn
          rw [hn] at hq
          have hlen : (decide (0 < (data.events.getD []).length)) = false := by
            simp only [List.isEmpty_iff] at hq
            rw [hq]
            simp
          have hrne : rest.isEmpty = false := by
            rw [hrest]
            cases pre2 <;> rfl
          rw [if_neg (by simp [hlen, hrne])]
          exact hrec le
        · rename_i e2 hn
          exact hrec (some e2)

theorem scheduleLoop_error_iff (net : String → Except FetchError RawTeamSchedule) :
    ∀ (eps : List String) (le : Option FetchError) (e : FetchError),
      scheduleLoop net eps le = .error e ↔
        ((eps = [] ∧ le = some e) ∨
          (∃ pre lep, eps = pre ++ [lep] ∧ net lep = .error e ∧
            ∀ p ∈ pre, schedRejected net p = true)) := by
  intro eps
  induction eps with
  | nil =>
    intro le e
    constructor
    · intro h
      cases le with
      | none => simp [scheduleLoop] at h
      | some e2 =>
        simp only [scheduleLoop, Except.error.injEq] at h
        exact Or.inl ⟨rfl, by rw [h]⟩
    · rintro (⟨-, hle⟩ | ⟨pre, lep, hsplit, -, -⟩)
      · rw [hle]
        rfl
      · exact absurd hsplit (by simp)
  | cons a rest ih =>
    intro le e
    constructor
    · intro h
      simp only [scheduleLoop] at h
      split at h
      · rename_i data hn
        split at h
        · exact absurd h (by simp)
        · rename_i hacc
          rcases (ih le e).mp h with ⟨hnil, -⟩ | ⟨pre, lep, hsplit, hnl, hrej⟩
          · rw [hnil] at hacc
            simp at hacc
          · refine Or.inr ⟨a :: pre, lep, by rw [hsplit]; rfl, hnl, ?_⟩
            intro p hp
            rcases List.mem_cons.mp hp with rfl | hp2
            · simp only [Bool.or_eq_true, decide_eq_true_eq, not_or] at hacc
              simp only [schedRejected, hn, List.isEmpty_iff]
              have := hacc.1
              cases hev : data.events.getD [] with
              | nil => rfl
              | cons y ys => rw [hev] at this; simp at this
            · exact hrej p hp2
      · rename_i e2 hn
        rcases (ih (some e2) e).mp h with ⟨hnil, hle⟩ | ⟨pre, lep, hsplit, hnl, hrej⟩
        · refine Or.inr ⟨[], a, by rw [hnil]; rfl, ?_, by simp⟩
          rw [hn, Option.some.inj hle]
        · refine Or.inr ⟨a :: pre, lep, by rw [hsplit]; rfl, hnl, ?_⟩
          intro p hp
          rcases List.mem_cons.mp hp with rfl | hp2
          · simp [schedRejected, hn]
          · exact hrej p hp2
    · rintro (⟨hnil, -⟩ | ⟨pre, lep, hsplit, hnl, hrej⟩)
      · exact absurd hnil (by simp)
      · cases pre with
        | nil =>
          simp only [List.nil_append] at hsplit
          rw [hsplit]
          simp only [scheduleLoop, hnl]
        | cons q pre2 =>
          simp only [List.cons_append] at hsplit
          obtain ⟨rfl, hrest⟩ := List.cons.inj hsplit
          have hq : schedRejected net a = true := hrej a (List.mem_cons_self a pre2)
          have hrej2 : ∀ p ∈ pre2, schedRejected net p = true := fun p hp =>
            hrej p (List.mem_cons_of_mem a hp)
          have hrec : ∀ le2, scheduleLoop net rest le2 = .error e := by
            intro le2
            exact (ih le2 e).mpr (Or.inr ⟨pre2, lep, hrest, hnl, hrej2⟩)
          simp only [scheduleLoop]
          unfold schedRejected at hq
          split
          · rename_i data hn
            rw [hn] at hq
            have hlen : (decide (0 < (data.events.getD []).length)) = false := by
              simp only [List.isEmpty_iff] at hq
              rw [hq]
              simp
            have hrne : rest.isEmpty = false := by
              rw [hrest]
              cases pre2 <;> rfl
            rw [if_neg (by simp [hlen, hrne])]
            exact hrec le
          · rename_i e2 hn
            exact hrec (some e2)

/-- Claim C5, amended: the club-schedule fetch returns the first
response containing at least one event (every earlier endpoint having
failed or returned empty), or the last endpoint's response if it
succeeds while all earlier responses were empty or failed; an error is
propagated exactly when the final endpoint failed and every earlier
endpoint either failed or returned an empty response — so an earlier
endpoint's success with an empty response does not prevent propagation —
and the propagated error is the final endpoint's (the last one thrown). -/
theorem claim_C5_schedule_fallback (net : String → Except FetchError RawTeamSchedule)
    (source : TeamSourceKey) :
    (∀ d, fetchTeamSchedule net source = .ok (some d) ↔
      ∃ pre ep post, (TEAM_SOURCES source).endpoints = pre ++ ep :: post ∧
        net ep = .ok d ∧ ((d.events.getD []) ≠ [] ∨ post = []) ∧
        ∀ p ∈ pre, schedRejected net p = true) ∧
    (∀ e, fetchTeamSchedule net source = .error e ↔
      ∃ pre lep, (TEAM_SOURCES source).endpoints = pre ++ [lep] ∧
        net lep = .error e ∧ ∀ p ∈ pre, schedRejected net p = true) := by
  constructor
  · intro d
    exact scheduleLoop_ok_some_iff net _ none d
  · intro e
    rw [fetchTeamSchedule, scheduleLoop_error_iff]
    have hnonempty : (TEAM_SOURCES source).endpoints ≠ [] := by
      cases source <;> simp [TEAM_SOURCES]
    constructor
    · rintro (⟨hnil, -⟩ | h)
      · exact absurd hnil hnonempty
      · exact h
    · intro h
      exact Or.inr h

/-- Witness for claim C5 (amended): under `netSchedC5`, the Leeds United
schedule fetch propagates the final (eng.2) endpoint's error because the
earlier (eng.1) endpoint returned an empty response. -/
theorem claim_C5_schedule_fallback_witness :
    fetchTeamSchedule netSchedC5 .LEEDS_UNITED = .error "schedule down" :=
  ((claim_C5_schedule_fallback netSchedC5 .LEEDS_UNITED).2 "schedule down").mpr
    ⟨["https://site.api.espn.com/apis/site/v2/sports/soccer/eng.1/teams/357/schedule"],
     "https://site.api.espn.com/apis/site/v2/sports/soccer/eng.2/teams/357/schedule",
     by decide, by rfl, by decide⟩

/-- Counterexample to claim C5 as stated: under `netSchedC5` the first
Leeds United schedule endpoint succeeds (with an empty response), so not
every endpoint failed — yet the fetch still propagates the last
endpoint's error. -/
theorem claim_C5_counterexample :
    (netSchedC5
        "https://site.api.espn.com/apis/site/v2/sports/soccer/eng.1/teams/357/schedule").isOk =
      true ∧
    fetchTeamSchedule netSchedC5 .LEEDS_UNITED = .error "schedule down" := by
  exact ⟨rfl, rfl⟩

/-- Claim C9, amended: a qualifying roster-page row is discarded exactly
when its timestamp attribute is missing or unparseable, its start time
falls outside the legacy window, or it has fewer than 7 cells — the
structured-cell threshold is 7, not 8, so a class- and
timestamp-qualifying row with exactly 7 cells is retained (its opponent
cell simply reads as absent). -/
theorem claim_C9_legacy_cell_threshold (env : TimeEnv) (row : LegacyRow) :
    legacyRowEvent env row = none ↔
      ∀ ts, row.dataTimestamp.bind parseIntJS = some ts →
        (isWithinWindow env (ts * 1000) LEGACY_RANGE_MONTHS_AHEAD
            LEGACY_RANGE_MONTHS_BEHIND = false ∨ row.cells.length < 7) := by
  have hb : (match row.dataTimestamp with
      | some attr => parseIntJS attr
      | none => none) = row.dataTimestamp.bind parseIntJS := by
    cases row.dataTimestamp <;> rfl
  simp only [legacyRowEvent, hb]
  cases hts : row.dataTimestamp.bind parseIntJS with
  | none => simp
  | some ts =>
    by_cases hw : isWithinWindow env (ts * 1000) LEGACY_RANGE_MONTHS_AHEAD
        LEGACY_RANGE_MONTHS_BEHIND = false
    · simp [hw]
    · by_cases hc : row.cells.length < 7
      · simp [hw, hc]
      · simp [hw, hc]

/-- Witness for claim C9 (amended): a qualifying row with only 6 cells
is discarded. -/
theorem claim_C9_legacy_cell_threshold_witness :
    legacyRowEvent envDemo rowC9short = none :=
  (claim_C9_legacy_cell_threshold envDemo rowC9short).mpr
    (fun ts hts => Or.inr (by decide))

/-- Counterexample to claim C9 as stated: `rowC9` passes the class and
timestamp checks and has exactly 7 cells, yet it is not discarded — the
normalizer emits one canonical event for it. -/
theorem claim_C9_counterexample :
    legacyRowClassOk rowC9 = true ∧ rowC9.cells.length = 7 ∧
      (normalizeLegacyCs2Matches envDemo [rowC9]).length = 1 := by
  exact ⟨rfl, rfl, rfl⟩

theorem jsTrim_ne_empty {s : String} {c : Char} (hc : c ∈ s.data)
    (hw : c.isWhitespace = false) : jsTrim s ≠ "" := by
  intro h
  have hdata : ((s.data.dropWhile Char.isWhitespace).reverse.dropWhile
      Char.isWhitespace).reverse = [] := by
    have hcongr := congrArg String.data h
    simpa [jsTrim] using hcongr
  rw [List.reverse_eq_nil_iff, List.dropWhile_eq_nil_iff] at hdata
  have hall : ∀ x ∈ s.data.dropWhile Char.isWhitespace, x.isWhitespace = true := by
    intro x hx
    exact hdata x (List.mem_reverse.mpr hx)
  have hsplit := List.takeWhile_append_dropWhile Char.isWhitespace s.data
  have hws : c.isWhitespace = true := by
    rcases List.mem_append.mp (by rw [hsplit]; exact hc) with hx | hx
    · exact List.mem_takeWhile_imp hx
    · exact hall c hx
  rw [hws] at hw
  exact Bool.noConfusion hw

theorem cleanText_ne_empty {v : Option String} {s : String}
    (h : cleanText v = some s) : s ≠ "" := by
  simp only [cleanText] at h
  split at h
  · simp at h
  · rename_i v2
    split at h
    · simp at h
    · split at h
      · simp at h
      · rename_i htr
        exact fun hs => htr ((Option.some.inj h).trans hs)

theorem pickFold_mem :
    ∀ (ps : List RawUfcCompetition) (p0 : RawUfcCompetition),
      ps.foldl (fun best current =>
        if current.matchNumber.getD 100 < best.matchNumber.getD 100 then current
        else best) p0 ∈ p0 :: ps := by
  intro ps
  induction ps with
  | nil => intro p0; simp
  | cons q qs ih =>
    intro p0
    rw [List.foldl_cons]
    have hmem := ih (if q.matchNumber.getD 100 < p0.matchNumber.getD 100 then q else p0)
    rcases List.mem_cons.mp hmem with h | h
    · rw [h]
      split
      · exact List.mem_cons_of_mem _ (List.mem_cons_self _ _)
      · exact List.mem_cons_self _ _
    · exact List.mem_cons_of_mem _ (List.mem_cons_of_mem _ h)

theorem pickMainUfcCompetition_mem (competitions : Option (List RawUfcCompetition))
    (c : RawUfcCompetition) (h : pickMainUfcCompetition competitions = some c) :
    c ∈ competitions.getD [] := by
  cases competitions with
  | none => simp [pickMainUfcCompetition] at h
  | some comps =>
    cases comps with
    | nil => simp [pickMainUfcCompetition] at h
    | cons c0 cs =>
      simp only [pickMainUfcCompetition] at h
      split at h
      · simp at h
      · rename_i p0 ps hpool
        have hmem : c ∈ p0 :: ps := by
          have hf := pickFold_mem ps p0
          rwa [Option.some.inj h] at hf
        rw [← hpool] at hmem
        simp only [Option.getD_some]
        by_cases hmc : ((c0 :: cs).filter
            (fun x => x.cardSegment.bind (·.name) == some "main")).isEmpty = true
        · rw [if_pos hmc] at hmem
          exact hmem
        · rw [if_neg hmc] at hmem
          exact (List.mem_filter.mp hmem).1

theorem normalizeUfcLoop_title (env : TimeEnv) :
    ∀ (events : List RawUfcEvent) (seen : List String) (e : CalendarEventWithMeta),
      (∀ ev ∈ events, ev.name ≠ some "" ∧
        ∀ comp, pickMainUfcCompetition ev.competitions = some comp →
          (comp.type.bind (·.text)) ≠ some "") →
      e ∈ normalizeUfcLoop env events seen → e.title ≠ "" := by
  intro events
  induction events with
  | nil => intro seen e _ he; simp [normalizeUfcLoop] at he
  | cons event rest ih =>
    intro seen e hcond he
    have hcondrest : ∀ ev ∈ rest, ev.name ≠ some "" ∧
        ∀ comp, pickMainUfcCompetition ev.competitions = some comp →
          (comp.type.bind (·.text)) ≠ some "" :=
      fun ev hev => hcond ev (List.mem_cons_of_mem _ hev)
    have hev := hcond event (List.mem_cons_self _ _)
    simp only [normalizeUfcLoop] at he
    split at he
    · exact ih seen e hcondrest he
    · split at he
      · exact ih seen e hcondrest he
      · split at he
        · exact ih _ e hcondrest he
        · split at he
          · exact ih _ e hcondrest he
          · rcases List.mem_cons.mp he with hh | hh
            · rw [hh]
              cases hname : event.name with
              | some str =>
                simp only [Option.or, hname, Option.getD_some]
                intro h0
                exact hev.1 (by rw [hname, h0])
              | none =>
                cases htxt : ((pickMainUfcCompetition event.competitions).bind
                    (·.type)).bind (·.text) with
                | none =>
                  show (((none : Option String).or none).getD "UFC Event") ≠ ""
                  decide
                | some t2 =>
                  intro h0
                  have ht2 : t2 = "" := h0
                  cases hcomp : pickMainUfcCompetition event.competitions with
                  | none =>
                    rw [hcomp] at htxt
                    exact Option.noConfusion (htxt : (none : Option String) = some t2)
                  | some comp =>
                    rw [hcomp] at htxt
                    have htxt2 : comp.type.bind (·.text) = some t2 := htxt
                    refine (hev.2 comp hcomp) ?_
                    rw [htxt2, ht2]
            · exact ih _ e hcondrest hh

theorem formatMatchup_title_ne_empty (ourTeamId ourTeamName : String)
    (competitors : List RawCompetitor) (c : Char) (hc : c ∈ ourTeamName.data)
    (hw : c.isWhitespace = false) :
    (formatMatchup ourTeamId ourTeamName competitors).title ≠ "" := by
  refine jsTrim_ne_empty ?_ hw
  simp [String.data_append, hc]

theorem normalizeTeamEvent_title (env : TimeEnv) (source : TeamSourceKey)
    (event : RawTeamEvent) (e : CalendarEventWithMeta)
    (h : normalizeTeamEvent env source event = some e) : e.title ≠ "" := by
  simp only [normalizeTeamEvent] at h
  split at h
  · simp at h
  · rename_i t heq
    split at h
    · simp at h
    · have hrec := Option.some.inj h
      subst hrec
      cases source
      · exact formatMatchup_title_ne_empty _ _ _ 'M' (by decide) (by decide)
      · exact formatMatchup_title_ne_empty _ _ _ 'L' (by decide) (by decide)

theorem str_legacy_prefix_ne_empty (t : String) : ("Legacy vs " ++ t) ≠ "" := by
  intro h
  have hd := congrArg String.data h
  rw [String.data_append] at hd
  simp at hd

theorem legacyRowEvent_title (env : TimeEnv) (row : LegacyRow)
    (e : CalendarEventWithMeta) (h : legacyRowEvent env row = some e) :
    e.title ≠ "" := by
  simp only [legacyRowEvent] at h
  split at h
  · simp at h
  · rename_i t heq
    split at h
    · simp at h
    · split at h
      · simp at h
      · have hrec := Option.some.inj h
        subst hrec
        cases hop : truthy (cleanText ((row.cells.get? 7).bind (·.textContent))) with
        | some opp =>
          simp only [hop]
          exact str_legacy_prefix_ne_empty opp
        | none =>
          simp only [hop]
          cases hcomp : cleanText
              ((((row.cells.get? 5).bind (·.link)).bind (·.textContent)).or
                ((row.cells.get? 5).bind (·.textContent))) with
          | some comp =>
            simp only [hcomp, Option.getD_some]
            exact cleanText_ne_empty hcomp
          | none => decide

theorem normalizeLegacyLoop_title (env : TimeEnv) :
    ∀ (rows : List LegacyRow) (seen : List String) (e : CalendarEventWithMeta),
      e ∈ normalizeLegacyLoop env rows seen → e.title ≠ "" := by
  intro rows
  induction rows with
  | nil => intro seen e he; simp [normalizeLegacyLoop] at he
  | cons row rest ih =>
    intro seen e he
    simp only [normalizeLegacyLoop] at he
    split at he
    · exact ih seen e he
    · rename_i ev hrow
      split at he
      · exact ih seen e he
      · rcases List.mem_cons.mp he with hh | hh
        · rw [hh]
          exact legacyRowEvent_title env row ev hrow
        · exact ih _ e hh

/-- Claim C10, amended: every canonical event produced by the club
normalizer and by the esports normalizer has a non-empty `title`, for
any raw payload; the UFC normalizer's titles are non-empty whenever no
raw event carries a present-but-empty `name` or a picked main
competition whose type text is the present empty string (in particular
for payloads with missing name fields, which fall back to the main
competition's type text or the `"UFC Event"` placeholder) — but a
present empty-string `name` is used verbatim, so it yields an empty
title. -/
theorem claim_C10_title_nonempty :
    (∀ (env : TimeEnv) (events : Option (List RawTeamEvent)) (source : TeamSourceKey)
        (e : CalendarEventWithMeta),
        e ∈ normalizeTeamEvents env events source → e.title ≠ "") ∧
    (∀ (env : TimeEnv) (trRows : List LegacyRow) (e : CalendarEventWithMeta),
        e ∈ normalizeLegacyCs2Matches env trRows → e.title ≠ "") ∧
    (∀ (env : TimeEnv) (data : RawUfcScoreboard) (e : CalendarEventWithMeta),
        (∀ ev ∈ data.events.getD [], ev.name ≠ some "" ∧
          ∀ comp, pickMainUfcCompetition ev.competitions = some comp →
            (comp.type.bind (·.text)) ≠ some "") →
        e ∈ normalizeUfcEvents env data → e.title ≠ "") := by
  refine ⟨?_, ?_, ?_⟩
  · intro env events source e he
    obtain ⟨a, _, ha⟩ := List.mem_filterMap.mp he
    exact normalizeTeamEvent_title env source a e ha
  · intro env trRows e he
    exact normalizeLegacyLoop_title env _ [] e he
  · intro env data e hcond he
    exact normalizeUfcLoop_title env _ [] e hcond he

/-- Witness for claim C10 (amended): the UFC payload `ufcC10ok`, whose
event has no `name` field at all, yields the placeholder title
`"UFC Event"`, which is non-empty. -/
theorem claim_C10_title_nonempty_witness : demoUfcOkEvt.title ≠ "" :=
  claim_C10_title_nonempty.2.2 envDemo ufcC10ok demoUfcOkEvt (by decide) (by decide)

/-- Counterexample to claim C10 as stated: the UFC payload `ufcC10` has
an in-window event whose `name` is the present empty string, and the
normalizer emits a canonical event whose `title` is the empty string. -/
theorem claim_C10_counterexample :
    (normalizeUfcEvents envDemo ufcC10).map (fun e => e.title) = [""] := by
  rfl

end Schedule
